import Mathlib

/-!
# ssc_mapping map evaluation: shallow embedding

Embedding of `ssc_mapping/eval/map_eval.h` and `ssc_map_eval_node.cpp`.

Conventions of the embedding:
* `float` values that the source only stores and compares (voxel weight, voxel
  distance, voxel size of a layer) are rationals; every finite binary32 value is a
  rational and the comparisons of the source are exact on them.  No binary32 value lies
  strictly between the rational `1/1000000` and the `double` literal `1e-6`, so
  `w > 1e-6` is the comparison `w > 1/1000000`.
* where the source computes coordinates in `float` (`createPointCloudFromVoxelIndices`)
  the values are of type `Binary32` and every operation is rounded to nearest, ties to
  even.
* `GlobalIndex`, `BlockIndex` and `VoxelIndex` are triples of integers.  The 64-bit
  range of a component is not reachable by index arithmetic of a run that fits in
  memory, so components are unbounded integers.
* output vectors that the source receives by pointer are passed in and returned.
-/

namespace SscMapping

/-- Integer triple, the common shape of `GlobalIndex`, `BlockIndex` and `VoxelIndex`. -/
structure Index3 where
  x : Int
  y : Int
  z : Int
  deriving DecidableEq, Repr

abbrev GlobalIndex := Index3
abbrev BlockIndex := Index3
abbrev VoxelIndex := Index3
abbrev GlobalIndexVector := List GlobalIndex

instance : Add Index3 := ⟨fun a b => ⟨a.x + b.x, a.y + b.y, a.z + b.z⟩⟩

/-- Record `voxblox::TsdfVoxel`: signed distance and weight, both zero when the block
is allocated. -/
structure TsdfVoxel where
  distance : ℚ := 0
  weight : ℚ := 0
  deriving DecidableEq

/-- Record `voxblox::Block<TsdfVoxel>`: the voxel array addressed by linear index.  Only
linear indices below `voxels_per_side ^ 3` are ever read. -/
structure Block where
  voxels : Nat → TsdfVoxel

/-- Record `voxblox::Layer<TsdfVoxel>`: voxel size, voxels per side and the block map,
kept as an association list whose order is the iteration order of the map. -/
structure Layer where
  voxel_size : ℚ
  voxels_per_side : Nat
  block_map : List (BlockIndex × Block)

/-- Well-formed layer: a positive number of voxels per side and no block index
allocated twice (the block map is a map). -/
def Layer.WF (layer : Layer) : Prop :=
  0 < layer.voxels_per_side ∧ (layer.block_map.map Prod.fst).Nodup

/-- Method `Layer::getAllAllocatedBlocks`. -/
def Layer.getAllAllocatedBlocks (layer : Layer) : List BlockIndex :=
  layer.block_map.map Prod.fst

/-- Lookup of a block index in the block map. -/
def lookupBlock : List (BlockIndex × Block) → BlockIndex → Option Block
  | [], _ => none
  | (k, b) :: rest, idx => if k = idx then some b else lookupBlock rest idx

/-- Method `Layer::getBlockPtrByIndex`: `none` is the null pointer. -/
def Layer.getBlockPtrByIndex (layer : Layer) (idx : BlockIndex) : Option Block :=
  lookupBlock layer.block_map idx

/-- Modelled from the spec: `Block::computeVoxelIndexFromLinearIndex`, the inverse of the
flattening of a local voxel index (each component in `[0, side)`) into a single linear
index; `x` is the fastest component. -/
def computeVoxelIndexFromLinearIndex (vps : Nat) (linear_index : Nat) : VoxelIndex :=
  ⟨((linear_index % (vps * vps)) % vps : Nat),
   ((linear_index % (vps * vps)) / vps : Nat),
   (linear_index / (vps * vps) : Nat)⟩

/-- Modelled from the spec: `Block::computeLinearIndexFromVoxelIndex`, the flattening of
a local voxel index into a linear index. -/
def computeLinearIndexFromVoxelIndex (vps : Nat) (index : VoxelIndex) : Nat :=
  (index.x + vps * (index.y + index.z * vps)).toNat

/-- Modelled from the spec: `voxblox::getGlobalVoxelIndexFromBlockAndVoxelIndex`,
`global = block * side + local` on every component. -/
def getGlobalVoxelIndexFromBlockAndVoxelIndex (block_index : BlockIndex)
    (voxel_index : VoxelIndex) (vps : Nat) : GlobalIndex :=
  ⟨block_index.x * vps + voxel_index.x,
   block_index.y * vps + voxel_index.y,
   block_index.z * vps + voxel_index.z⟩

/-- Modelled from the spec: `voxblox::getBlockIndexFromGlobalVoxelIndex`, the global
index divided component-wise, with floor semantics, by `side`. -/
def getBlockIndexFromGlobalVoxelIndex (g : GlobalIndex) (vps : Nat) : BlockIndex :=
  ⟨g.x / vps, g.y / vps, g.z / vps⟩

/-- Modelled from the spec: `voxblox::getLocalFromGlobalVoxelIndex`, the local voxel
index with each component in `[0, side)`. -/
def getLocalFromGlobalVoxelIndex (g : GlobalIndex) (vps : Nat) : VoxelIndex :=
  ⟨g.x % vps, g.y % vps, g.z % vps⟩

/-- Modelled from the spec: `voxblox::getBlockAndVoxelIndexFromGlobalVoxelIndex`. -/
def getBlockAndVoxelIndexFromGlobalVoxelIndex (g : GlobalIndex) (vps : Nat) :
    BlockIndex × VoxelIndex :=
  (getBlockIndexFromGlobalVoxelIndex g vps, getLocalFromGlobalVoxelIndex g vps)

/-- Method `Block::getVoxelByLinearIndex`. -/
def Block.getVoxelByLinearIndex (block : Block) (linear_index : Nat) : TsdfVoxel :=
  block.voxels linear_index

/-- Method `Block::getVoxelByVoxelIndex`. -/
def Block.getVoxelByVoxelIndex (block : Block) (vps : Nat) (index : VoxelIndex) :
    TsdfVoxel :=
  block.voxels (computeLinearIndexFromVoxelIndex vps index)

/-- Modelled from the spec: `Layer::getVoxelPtrByGlobalIndex`, the voxel at a global
index; `none` (the null pointer) when the owning block is not allocated. -/
def Layer.getVoxelPtrByGlobalIndex (layer : Layer) (g : GlobalIndex) : Option TsdfVoxel :=
  match layer.getBlockPtrByIndex (getBlockIndexFromGlobalVoxelIndex g layer.voxels_per_side) with
  | none => none
  | some block =>
    some (block.getVoxelByVoxelIndex layer.voxels_per_side
      (getLocalFromGlobalVoxelIndex g layer.voxels_per_side))

/-- Modelled from the spec: `voxblox::visualizeOccupiedTsdfVoxels`, the Occupied test of
a signed-distance voxel: weight above epsilon `1e-6` and distance at or below the given
bound. -/
def visualizeOccupiedTsdfVoxels (voxel : TsdfVoxel) (min_distance : ℚ) : Bool :=
  decide (voxel.weight > 1 / 1000000) && decide (voxel.distance ≤ min_distance)

/-- Function `isObserved` for `TsdfVoxel`. -/
def isObserved (voxel : TsdfVoxel) (voxel_size : ℚ) : Bool :=
  visualizeOccupiedTsdfVoxels voxel voxel_size

/-- Body of the inner loop of `calculate_Intersection_difference` for one linear index
of one allocated block. -/
def intersectionDifferenceVoxel (layer otherLayer : Layer) (index : BlockIndex)
    (block : Block) (acc : GlobalIndexVector × GlobalIndexVector) (linear_index : Nat) :
    GlobalIndexVector × GlobalIndexVector :=
  let gt_voxel := block.getVoxelByLinearIndex linear_index
  if isObserved gt_voxel layer.voxel_size then
    let voxel_idx := computeVoxelIndexFromLinearIndex layer.voxels_per_side linear_index
    let block_idx := index
    let global_voxel_idx :=
      getGlobalVoxelIndexFromBlockAndVoxelIndex block_idx voxel_idx layer.voxels_per_side
    match otherLayer.getVoxelPtrByGlobalIndex global_voxel_idx with
    | some observed_voxel =>
      if isObserved observed_voxel otherLayer.voxel_size then
        (acc.1 ++ [global_voxel_idx], acc.2)
      else
        (acc.1, acc.2 ++ [global_voxel_idx])
    | none => (acc.1, acc.2 ++ [global_voxel_idx])
  else acc

/-- Body of the outer loop of `calculate_Intersection_difference` for one allocated
block index: `getBlockByIndex`, then all linear indices below `vps * vps * vps`.  The
`none` branch is the fatal error of `getBlockByIndex` on a missing block, which the
indices of `getAllAllocatedBlocks` never take. -/
def intersectionDifferenceBlock (layer otherLayer : Layer)
    (acc : GlobalIndexVector × GlobalIndexVector) (index : BlockIndex) :
    GlobalIndexVector × GlobalIndexVector :=
  let vps := layer.voxels_per_side
  let num_voxels_per_block := vps * vps * vps
  match layer.getBlockPtrByIndex index with
  | none => acc
  | some block =>
    (List.range num_voxels_per_block).foldl
      (intersectionDifferenceVoxel layer otherLayer index block) acc

/-- Function `calculate_Intersection_difference`: the pair returned is
`(intersection, difference)` after the call. -/
def calculate_Intersection_difference (layer otherLayer : Layer)
    (intersection difference : GlobalIndexVector) :
    GlobalIndexVector × GlobalIndexVector :=
  layer.getAllAllocatedBlocks.foldl (intersectionDifferenceBlock layer otherLayer)
    (intersection, difference)

/-- Point of space with `float` coordinates (`voxblox::Point`). -/
structure Point where
  x : ℚ
  y : ℚ
  z : ℚ
  deriving DecidableEq

/-- Modelled from the spec: `voxblox::getGridIndexFromPoint`, `floor(point * inv)` on
every component. -/
def getGridIndexFromPoint (point : Point) (grid_size_inv : ℚ) : Index3 :=
  ⟨⌊point.x * grid_size_inv⌋, ⌊point.y * grid_size_inv⌋, ⌊point.z * grid_size_inv⌋⟩

/-- Modelled from the spec: `Layer::allocateNewBlock`, which adds a block of
default-initialised voxels unless the index is allocated already. -/
def Layer.allocateNewBlock (layer : Layer) (idx : BlockIndex) : Layer :=
  match layer.getBlockPtrByIndex idx with
  | some _ => layer
  | none => { layer with block_map := layer.block_map ++ [(idx, ⟨fun _ => {}⟩)] }

/-- Modelled from the spec: `Layer::allocateNewBlockByCoordinates`; the block size is
`voxel_size * voxels_per_side`. -/
def Layer.allocateNewBlockByCoordinates (layer : Layer) (coords : Point) : Layer :=
  layer.allocateNewBlock
    (getGridIndexFromPoint coords (1 / (layer.voxel_size * layer.voxels_per_side)))

/-- Write through the mutable pointer of `getVoxelPtrByGlobalIndex`: the voxel at `g`
is replaced by `f` of it in the block that owns `g`. -/
def updateBlocks (f : TsdfVoxel → TsdfVoxel) (vps : Nat) (g : GlobalIndex) :
    List (BlockIndex × Block) → List (BlockIndex × Block)
  | [] => []
  | (k, b) :: rest =>
    if k = getBlockIndexFromGlobalVoxelIndex g vps then
      (k, ⟨fun i =>
        if i = computeLinearIndexFromVoxelIndex vps (getLocalFromGlobalVoxelIndex g vps)
        then f (b.voxels i) else b.voxels i⟩) :: rest
    else (k, b) :: updateBlocks f vps g rest

/-- Statement `layer.getVoxelPtrByGlobalIndex(g)->weight = w`. -/
def Layer.setWeight (layer : Layer) (g : GlobalIndex) (w : ℚ) : Layer :=
  { layer with
    block_map :=
      updateBlocks (fun v => { v with weight := w }) layer.voxels_per_side g layer.block_map }

/-- Index pairs visited by the nested loops `for x in [x_min, x_max)`,
`for y in [y_min, y_max)` of `test_eval_metrics`, as `GlobalIndex(x, y, 0)`. -/
def fixtureIndices (x_min x_max y_min y_max : Nat) : List GlobalIndex :=
  (List.range' x_min (x_max - x_min)).flatMap fun x =>
    (List.range' y_min (y_max - y_min)).map fun y => ⟨x, y, 0⟩

/-- Empty map of `test_eval_metrics`: `tsdf_voxel_size = 1`, `tsdf_voxels_per_side = 8`. -/
def fixtureConfig : Layer := ⟨1, 8, []⟩

/-- Ground-truth map of `test_eval_metrics`. -/
def ground_truth_map : Layer :=
  let block_size : ℚ := fixtureConfig.voxel_size * fixtureConfig.voxels_per_side
  let layer := fixtureConfig.allocateNewBlockByCoordinates ⟨0, 0, 0⟩
  let layer := layer.allocateNewBlockByCoordinates ⟨block_size, 0, 0⟩
  (fixtureIndices 4 12 3 6).foldl (fun l voxelIdx => l.setWeight voxelIdx 1) layer

/-- Observed map of `test_eval_metrics`. -/
def observed_map : Layer :=
  let layer := fixtureConfig.allocateNewBlockByCoordinates ⟨0, 0, 0⟩
  (fixtureIndices 5 8 2 4).foldl (fun l voxelIdx => l.setWeight voxelIdx 1) layer

/-- A voxel of `layer` at `g` is classified Occupied: the owning block is allocated, the
weight is above `1e-6` and the distance is at or below the voxel size. -/
def Layer.Occupied (layer : Layer) (g : GlobalIndex) : Prop :=
  ∃ v, layer.getVoxelPtrByGlobalIndex g = some v ∧
    v.weight > 1 / 1000000 ∧ v.distance ≤ layer.voxel_size


/-! ## Classification and frontier search -/

/-- Function `voxelState`: `0` free, `1` occupied, `2` unknown. -/
def voxelState (index : GlobalIndex) (layer : Layer) : Int :=
  let bv := getBlockAndVoxelIndexFromGlobalVoxelIndex index layer.voxels_per_side
  let block_idx := bv.1
  let voxel_idx := bv.2
  match layer.getBlockPtrByIndex block_idx with
  | some block =>
    let voxel := block.getVoxelByVoxelIndex layer.voxels_per_side voxel_idx
    if voxel.weight > 1 / 1000000 then
      if voxel.distance > layer.voxel_size then 0 else 1
    else 2
  | none => 2

/-- Table `kNeighborOffsets` of `computeFrontierCandidates`. -/
def kNeighborOffsets : List GlobalIndex :=
  [⟨1, 0, 0⟩, ⟨1, 1, 0⟩, ⟨1, -1, 0⟩, ⟨1, 0, 1⟩,
   ⟨1, 1, 1⟩, ⟨1, -1, 1⟩, ⟨1, 0, -1⟩, ⟨1, 1, -1⟩,
   ⟨1, -1, -1⟩, ⟨0, 1, 0⟩, ⟨0, -1, 0⟩, ⟨0, 0, 1⟩,
   ⟨0, 1, 1⟩, ⟨0, -1, 1⟩, ⟨0, 0, -1⟩, ⟨0, 1, -1⟩,
   ⟨0, -1, -1⟩, ⟨-1, 0, 0⟩, ⟨-1, 1, 0⟩, ⟨-1, -1, 0⟩,
   ⟨-1, 0, 1⟩, ⟨-1, 1, 1⟩, ⟨-1, -1, 1⟩, ⟨-1, 0, -1⟩,
   ⟨-1, 1, -1⟩, ⟨-1, -1, -1⟩]

/-- Function `indexFromPoint`. -/
def indexFromPoint (point : Point) (voxel_size_inv : ℚ) : GlobalIndex :=
  getGridIndexFromPoint point voxel_size_inv

/-- Local state of the search loop of `computeFrontierCandidates`: the open stack (top
first), the closed set in insertion order, and the obstacle vector. -/
structure SearchState where
  open_stack : List GlobalIndex
  closed_list : List GlobalIndex
  obstacles : GlobalIndexVector

/-- Body of the loop over `kNeighborOffsets` for one offset. -/
def visitNeighbor (layer : Layer) (current : GlobalIndex) (st : SearchState)
    (offset : GlobalIndex) : SearchState :=
  let candidate := current + offset
  if candidate ∈ st.closed_list then st
  else
    let state := voxelState candidate layer
    if state = 0 ∨ state = 2 then
      { st with open_stack := candidate :: st.open_stack,
                closed_list := st.closed_list ++ [candidate] }
    else
      { st with obstacles := st.obstacles ++ [candidate] }

/-- One iteration of the `while (!open_stack.empty())` loop after the pop of
`current`. -/
def expandCurrent (layer : Layer) (current : GlobalIndex) (st : SearchState) : SearchState :=
  kNeighborOffsets.foldl (visitNeighbor layer current) st

/-- The `while (!open_stack.empty())` loop, run for at most `fuel` pops: `none` when
the stack is still non-empty after `fuel` pops. -/
def searchLoop (layer : Layer) : Nat → SearchState → Option SearchState
  | fuel, st =>
    match st.open_stack with
    | [] => some st
    | current :: rest =>
      match fuel with
      | 0 => none
      | fuel + 1 =>
        searchLoop layer fuel (expandCurrent layer current { st with open_stack := rest })

/-- Outcome of `computeFrontierCandidates`. -/
inductive FrontierResult where
  /-- Abort of the process: `CHECK_GT(voxel_size, 0.f)` failed. -/
  | checkFailed
  /-- The loop did not finish within the given number of pops. -/
  | outOfFuel
  /-- The function returned with these `voxels` and `obstacles`. -/
  | finished (voxels obstacles : GlobalIndexVector)
  deriving DecidableEq

/-- Function `computeFrontierCandidates`.  The closed set is copied behind `voxels` in
the iteration order of the set, which the source leaves unspecified; the insertion order
stands for it. -/
def computeFrontierCandidates (layer : Layer) (initial_point : Point)
    (voxels obstacles : GlobalIndexVector) (fuel : Nat) : FrontierResult :=
  let voxel_size := layer.voxel_size
  if voxel_size > 0 then
    let voxel_size_inv := 1 / voxel_size
    match searchLoop layer fuel ⟨[indexFromPoint initial_point voxel_size_inv], [], obstacles⟩ with
    | none => .outOfFuel
    | some st => .finished (voxels ++ st.closed_list) st.obstacles
  else .checkFailed

/-! ## Metrics of the evaluation node -/

/-- Result of a `float` division of two counts.  `quotient q` is the binary32 value
obtained from the exact quotient `q` (rounding is not modelled); a zero divisor gives
`nan` for a zero dividend and `infinity` for a positive one. -/
inductive FloatValue where
  | quotient (q : ℚ)
  | infinity
  | nan
  deriving DecidableEq

/-- Expression `n / float(d)` on counts. -/
def divCounts (n d : Nat) : FloatValue :=
  if d = 0 then (if n = 0 then .nan else .infinity) else .quotient ((n : ℚ) / (d : ℚ))

/-- Metrics printed by `main` (`recall_` is the variable `recall`). -/
structure Metrics where
  iou : FloatValue
  precision : FloatValue
  recall_ : FloatValue
  observed_region : FloatValue
  deriving DecidableEq

/-- Arithmetic of `main` on the sizes of the four vectors. -/
def computeMetrics (intersection_gt difference_gt intersection_observed
    difference_observed : Nat) : Metrics :=
  let observed_voxels := intersection_observed + difference_observed
  let gt_occupied_voxels := difference_gt + intersection_gt
  { iou := divCounts intersection_gt (intersection_gt + difference_gt + difference_observed)
    recall_ := divCounts intersection_observed (intersection_gt + difference_gt)
    precision := divCounts intersection_observed (intersection_observed + difference_observed)
    observed_region := divCounts observed_voxels gt_occupied_voxels }

/-- Evaluation of `main` on two loaded layers: the `CHECK` that both voxel sizes are
equal (`none` when it fails and the process aborts), both calls of
`calculate_Intersection_difference` and the metrics of the sizes of their outputs. -/
def evaluate (ground_truth observed : Layer) : Option Metrics :=
  if ground_truth.voxel_size = observed.voxel_size then
    let gt := calculate_Intersection_difference ground_truth observed [] []
    let ob := calculate_Intersection_difference observed ground_truth [] []
    some (computeMetrics gt.1.length gt.2.length ob.1.length ob.2.length)
  else none


/-! ## Pruning, splitting and collecting -/

/-- Function `find_unobserved_free_voxels`, body of the inner loop for one linear index
of one allocated block. -/
def unobservedFreeVoxel (layer otherLayer : Layer) (index : BlockIndex) (block : Block)
    (out_voxels : GlobalIndexVector) (linear_index : Nat) : GlobalIndexVector :=
  let voxel := block.getVoxelByLinearIndex linear_index
  if voxel.weight < 1 / 1000000 then
    let voxel_idx := computeVoxelIndexFromLinearIndex layer.voxels_per_side linear_index
    let block_idx := index
    let global_voxel_idx :=
      getGlobalVoxelIndexFromBlockAndVoxelIndex block_idx voxel_idx layer.voxels_per_side
    match otherLayer.getVoxelPtrByGlobalIndex global_voxel_idx with
    | none => out_voxels ++ [global_voxel_idx]
    | some observed_voxel =>
      if observed_voxel.weight < 1 / 1000000 then out_voxels ++ [global_voxel_idx]
      else out_voxels
  else out_voxels

/-- Function `find_unobserved_free_voxels`, body of the outer loop for one allocated
block index. -/
def unobservedFreeBlock (layer otherLayer : Layer) (out_voxels : GlobalIndexVector)
    (index : BlockIndex) : GlobalIndexVector :=
  let vps := layer.voxels_per_side
  let num_voxels_per_block := vps * vps * vps
  match layer.getBlockPtrByIndex index with
  | none => out_voxels
  | some block =>
    (List.range num_voxels_per_block).foldl
      (unobservedFreeVoxel layer otherLayer index block) out_voxels

/-- Function `find_unobserved_free_voxels`: the vector returned is `out_voxels` after
the call. -/
def find_unobserved_free_voxels (layer otherLayer : Layer) (out_voxels : GlobalIndexVector) :
    GlobalIndexVector :=
  layer.getAllAllocatedBlocks.foldl (unobservedFreeBlock layer otherLayer) out_voxels

/-- Function `calculateFreeObservedVoxels`, body of the inner loop. -/
def freeObservedVoxel (layer : Layer) (index : BlockIndex) (block : Block)
    (voxels : GlobalIndexVector) (linear_index : Nat) : GlobalIndexVector :=
  let voxel := block.getVoxelByLinearIndex linear_index
  if voxel.weight > 1 / 1000000 then
    let voxel_idx := computeVoxelIndexFromLinearIndex layer.voxels_per_side linear_index
    let block_idx := index
    let global_voxel_idx :=
      getGlobalVoxelIndexFromBlockAndVoxelIndex block_idx voxel_idx layer.voxels_per_side
    voxels ++ [global_voxel_idx]
  else voxels

/-- Function `calculateFreeObservedVoxels`, body of the outer loop. -/
def freeObservedBlock (layer : Layer) (voxels : GlobalIndexVector) (index : BlockIndex) :
    GlobalIndexVector :=
  let vps := layer.voxels_per_side
  let num_voxels_per_block := vps * vps * vps
  match layer.getBlockPtrByIndex index with
  | none => voxels
  | some block =>
    (List.range num_voxels_per_block).foldl (freeObservedVoxel layer index block) voxels

/-- Function `calculateFreeObservedVoxels`: the vector returned is `voxels` after the
call. -/
def calculateFreeObservedVoxels (layer : Layer) (voxels : GlobalIndexVector) :
    GlobalIndexVector :=
  layer.getAllAllocatedBlocks.foldl (freeObservedBlock layer) voxels

/-- Function `pruneInsideVoxels`: `erase(remove_if(..))` keeps, in their order, the
elements on which the predicate of the lambda is false. -/
def pruneInsideVoxels (layer : Layer) (voxels : GlobalIndexVector) : GlobalIndexVector :=
  voxels.filter fun voxel_idx =>
    !(match layer.getVoxelPtrByGlobalIndex voxel_idx with
      | some voxel => decide (voxel.weight > 1 / 1000000) && decide (voxel.distance < 0)
      | none => false)

/-- Component-wise minimum of two points (`cwiseMin`). -/
def Point.cwiseMin (a b : Point) : Point := ⟨min a.x b.x, min a.y b.y, min a.z b.z⟩

/-- Component-wise maximum of two points (`cwiseMax`). -/
def Point.cwiseMax (a b : Point) : Point := ⟨max a.x b.x, max a.y b.y, max a.z b.z⟩

/-- Modelled from the spec: `voxblox::getCenterPointFromGridIndex`, the voxel-center
convention `coord = index * voxelSize + voxelSize/2`. -/
def getCenterPointFromGridIndex (idx : GlobalIndex) (grid_size : ℚ) : Point :=
  ⟨idx.x * grid_size + grid_size / 2, idx.y * grid_size + grid_size / 2,
   idx.z * grid_size + grid_size / 2⟩

/-- Function `voxblox::getOriginPointFromGridIndex` of the grid library (not among the
sources; the spec does not describe it): the corner `index * grid_size` of the grid
cell, as opposed to its center. -/
def getOriginPointFromGridIndex (idx : GlobalIndex) (grid_size : ℚ) : Point :=
  ⟨idx.x * grid_size, idx.y * grid_size, idx.z * grid_size⟩

/-- Function `pruneOutlierVoxels`, body of the inner loop of the bounding-box pass: the
accumulator is `(min_coords, max_coords)`. -/
def outlierBoundsVoxel (layer : Layer) (index : BlockIndex) (block : Block)
    (acc : Point × Point) (linear_index : Nat) : Point × Point :=
  let voxel := block.getVoxelByLinearIndex linear_index
  if voxel.weight > 1 / 1000000 then
    let voxel_idx := computeVoxelIndexFromLinearIndex layer.voxels_per_side linear_index
    let block_idx := index
    let global_voxel_idx :=
      getGlobalVoxelIndexFromBlockAndVoxelIndex block_idx voxel_idx layer.voxels_per_side
    let voxel_coords := getCenterPointFromGridIndex global_voxel_idx layer.voxel_size
    (acc.1.cwiseMin voxel_coords, acc.2.cwiseMax voxel_coords)
  else acc

/-- Function `pruneOutlierVoxels`, body of the outer loop of the bounding-box pass. -/
def outlierBoundsBlock (layer : Layer) (acc : Point × Point) (index : BlockIndex) :
    Point × Point :=
  let vps := layer.voxels_per_side
  let num_voxels_per_block := vps * vps * vps
  match layer.getBlockPtrByIndex index with
  | none => acc
  | some block =>
    (List.range num_voxels_per_block).foldl (outlierBoundsVoxel layer index block) acc

/-- Function `pruneOutlierVoxels`, the bounding-box pass: `(min_coords, max_coords)`
after the loops, both started at zero. -/
def outlierBounds (layer : Layer) : Point × Point :=
  layer.getAllAllocatedBlocks.foldl (outlierBoundsBlock layer) (⟨0, 0, 0⟩, ⟨0, 0, 0⟩)

/-- Function `pruneOutlierVoxels`: the bounding-box pass, then `erase(remove_if(..))`
with the test of the lambda on the origin point of the index. -/
def pruneOutlierVoxels (layer : Layer) (voxels : GlobalIndexVector) : GlobalIndexVector :=
  let min_coords := (outlierBounds layer).1
  let max_coords := (outlierBounds layer).2
  voxels.filter fun voxel_idx =>
    let voxel_coords := getOriginPointFromGridIndex voxel_idx layer.voxel_size
    !(decide (min_coords.cwiseMin voxel_coords ≠ min_coords ∨
        max_coords.cwiseMax voxel_coords ≠ max_coords))

/-- Function `splitObservedAndUnObservedVoxels`, body of the loop. -/
def splitVoxel (layer : Layer) (acc : GlobalIndexVector × GlobalIndexVector)
    (voxel_idx : GlobalIndex) : GlobalIndexVector × GlobalIndexVector :=
  match layer.getVoxelPtrByGlobalIndex voxel_idx with
  | none => (acc.1, acc.2 ++ [voxel_idx])
  | some voxel =>
    if voxel.weight > 1 / 1000000 then (acc.1 ++ [voxel_idx], acc.2)
    else (acc.1, acc.2 ++ [voxel_idx])

/-- Function `splitObservedAndUnObservedVoxels`: the pair returned is
`(out_observed_voxels, out_un_observed_voxels)` after the call. -/
def splitObservedAndUnObservedVoxels (layer : Layer) (in_voxels : GlobalIndexVector)
    (out_observed_voxels out_un_observed_voxels : GlobalIndexVector) :
    GlobalIndexVector × GlobalIndexVector :=
  in_voxels.foldl (splitVoxel layer) (out_observed_voxels, out_un_observed_voxels)

/-! ## Point clouds and the pop sequence of the search -/

/-- Indices popped from the open stack, in order, by the first `fuel` iterations of the
loop `while (!open_stack.empty())` started in the state `st`: the values taken by
`current`. -/
def searchPops (layer : Layer) : Nat → SearchState → List GlobalIndex
  | fuel, st =>
    match st.open_stack with
    | [] => []
    | current :: rest =>
      match fuel with
      | 0 => []
      | fuel + 1 =>
        current ::
          searchPops layer fuel (expandCurrent layer current { st with open_stack := rest })

/-- Values taken by `current` during the first `fuel` iterations of the search loop of
`computeFrontierCandidates` (none when the `CHECK` on the voxel size fails). -/
def computeFrontierCandidatesPops (layer : Layer) (initial_point : Point)
    (obstacles : GlobalIndexVector) (fuel : Nat) : List GlobalIndex :=
  let voxel_size := layer.voxel_size
  if voxel_size > 0 then
    let voxel_size_inv := 1 / voxel_size
    searchPops layer fuel ⟨[indexFromPoint initial_point voxel_size_inv], [], obstacles⟩
  else []

/-! ## Specification-side vocabulary -/

/-- Boolean form of `Layer.Occupied`, the test the source applies to the other layer:
`observed_voxel != nullptr && isObserved(*observed_voxel, voxel_size)`. -/
def Layer.isOccupied (layer : Layer) (g : GlobalIndex) : Bool :=
  match layer.getVoxelPtrByGlobalIndex g with
  | some v => isObserved v layer.voxel_size
  | none => false

/-- Global index emitted by `calculate_Intersection_difference` for one linear index of
a block, if any. -/
def emitVoxel (layer : Layer) (index : BlockIndex) (block : Block) (linear_index : Nat) :
    List GlobalIndex :=
  if isObserved (block.getVoxelByLinearIndex linear_index) layer.voxel_size then
    [getGlobalVoxelIndexFromBlockAndVoxelIndex index
      (computeVoxelIndexFromLinearIndex layer.voxels_per_side linear_index)
      layer.voxels_per_side]
  else []

/-- Global indices emitted for one allocated block index. -/
def emitBlock (layer : Layer) (index : BlockIndex) : List GlobalIndex :=
  match layer.getBlockPtrByIndex index with
  | none => []
  | some block =>
    (List.range (layer.voxels_per_side * layer.voxels_per_side * layer.voxels_per_side)).flatMap
      (emitVoxel layer index block)

/-- Global indices emitted for the whole layer, in visiting order. -/
def emitLayer (layer : Layer) : List GlobalIndex :=
  layer.getAllAllocatedBlocks.flatMap (emitBlock layer)

/-- Full 3-D adjacency of two lattice indices: distinct, and at most one apart on
every axis (the 26 face, edge and corner neighbours). -/
def Adjacent26 (a b : GlobalIndex) : Prop :=
  a ≠ b ∧ |b.x - a.x| ≤ 1 ∧ |b.y - a.y| ≤ 1 ∧ |b.z - a.z| ≤ 1

/-- The voxel at `v` is classified Free or Unknown by `voxelState`. -/
def Traversable (layer : Layer) (v : GlobalIndex) : Prop :=
  voxelState v layer = 0 ∨ voxelState v layer = 2

/-- There is a chain `a = v0, v1, ..., vk = v` with `k ≥ 1` whose consecutive indices
are 26-adjacent and whose indices `v1 .. vk` are all classified Free or Unknown. -/
def ChainReachable (layer : Layer) (a v : GlobalIndex) : Prop :=
  ∃ chain : List GlobalIndex,
    List.Chain Adjacent26 a chain ∧ (∀ u ∈ chain, Traversable layer u) ∧
      chain.getLast? = some v

/-- Inductive form of `ChainReachable`. -/
inductive Path (layer : Layer) : GlobalIndex → GlobalIndex → Prop where
  | single {a v : GlobalIndex} : Adjacent26 a v → Traversable layer v → Path layer a v
  | cons {a u v : GlobalIndex} :
      Adjacent26 a u → Traversable layer u → Path layer u v → Path layer a v

/-- Every traversable neighbour of `u` is in the closed list. -/
def Expanded (layer : Layer) (u : GlobalIndex) (closed : List GlobalIndex) : Prop :=
  ∀ w, Adjacent26 u w → Traversable layer w → w ∈ closed

/-- Invariant of the search loop started at `seed`. -/
def SearchInv (layer : Layer) (seed : GlobalIndex) (st : SearchState) : Prop :=
  (∀ v ∈ st.closed_list, Path layer seed v) ∧
  (∀ u ∈ st.open_stack, u = seed ∨ u ∈ st.closed_list) ∧
  (∀ u, (u = seed ∨ u ∈ st.closed_list) →
    u ∈ st.open_stack ∨ Expanded layer u st.closed_list) ∧
  st.closed_list.Nodup

/-- Relation between the state before and after the neighbours `current + o`, `o ∈ os`,
have been visited. -/
structure Visited (layer : Layer) (current : GlobalIndex) (os : List GlobalIndex)
    (st st' : SearchState) : Prop where
  closed_mono : ∀ v ∈ st.closed_list, v ∈ st'.closed_list
  closed_new : ∀ v ∈ st'.closed_list, v ∈ st.closed_list ∨
    ((∃ o ∈ os, v = current + o) ∧ Traversable layer v ∧ v ∈ st'.open_stack)
  stack_mono : ∀ u ∈ st.open_stack, u ∈ st'.open_stack
  stack_new : ∀ u ∈ st'.open_stack, u ∈ st.open_stack ∨ u ∈ st'.closed_list
  done : ∀ o ∈ os, Traversable layer (current + o) → current + o ∈ st'.closed_list
  obstacles_ext : ∃ new, st'.obstacles = st.obstacles ++ new ∧
    ∀ g ∈ new, voxelState g layer = 1
  nodup : st.closed_list.Nodup → st'.closed_list.Nodup
  count : st'.open_stack.length + st.closed_list.length =
    st.open_stack.length + st'.closed_list.length

/-- Layer with one block of 4 voxels per side in which every voxel is Occupied except
(1,1,1), which is Free, and (2,1,1), which is Unknown: a sealed two-voxel cavity. -/
def sealedLayer : Layer :=
  { voxel_size := 1
    voxels_per_side := 4
    block_map := [(⟨0, 0, 0⟩,
      ⟨fun i => if i = 21 then ⟨2, 1⟩ else if i = 22 then ⟨0, 0⟩ else ⟨0, 1⟩⟩)] }

/-- Obstacle vector of a finished run (empty otherwise). -/
def FrontierResult.obstaclesOf : FrontierResult → GlobalIndexVector
  | .finished _ obstacles => obstacles
  | _ => []

/-- Start point inside the voxel (1,1,1) of `sealedLayer`. -/
def sealedStart : Point := ⟨3 / 2, 3 / 2, 3 / 2⟩

/-- Invariant of the search loop on the obstacle vector, for a run started at `seed`
with the obstacle vector `obstacles0`. -/
def ObstacleInv (layer : Layer) (seed : GlobalIndex) (obstacles0 : GlobalIndexVector)
    (st : SearchState) : Prop :=
  (∀ g ∈ st.obstacles, g ∈ obstacles0 ∨
    (voxelState g layer = 1 ∧
      ∃ u, (u = seed ∨ u ∈ st.closed_list) ∧ Adjacent26 u g)) ∧
  (∀ u, (u = seed ∨ u ∈ st.closed_list) →
    u ∈ st.open_stack ∨
      ∀ w, Adjacent26 u w → voxelState w layer = 1 → w ∈ st.obstacles)

/-- Layer with one block of 4 voxels per side in which every voxel is Occupied. -/
def solidLayer : Layer :=
  { voxel_size := 1
    voxels_per_side := 4
    block_map := [(⟨0, 0, 0⟩, ⟨fun _ => ⟨0, 1⟩⟩)] }

/-- Global index listed for one linear index of a block when the voxel satisfies `p`. -/
def scanVoxel (layer : Layer) (p : TsdfVoxel → Prop) [DecidablePred p] (index : BlockIndex)
    (block : Block) (linear_index : Nat) : List GlobalIndex :=
  if p (block.getVoxelByLinearIndex linear_index) then
    [getGlobalVoxelIndexFromBlockAndVoxelIndex index
      (computeVoxelIndexFromLinearIndex layer.voxels_per_side linear_index)
      layer.voxels_per_side]
  else []

/-- Global indices of the voxels of one allocated block that satisfy `p`. -/
def scanBlock (layer : Layer) (p : TsdfVoxel → Prop) [DecidablePred p] (index : BlockIndex) :
    List GlobalIndex :=
  match layer.getBlockPtrByIndex index with
  | none => []
  | some block =>
    (List.range (layer.voxels_per_side * layer.voxels_per_side * layer.voxels_per_side)).flatMap
      (scanVoxel layer p index block)

/-- Global indices of the voxels in allocated blocks that satisfy `p`, in the visiting
order of the nested loops over blocks and linear indices. -/
def scanLayer (layer : Layer) (p : TsdfVoxel → Prop) [DecidablePred p] : List GlobalIndex :=
  layer.getAllAllocatedBlocks.flatMap (scanBlock layer p)

/-- The voxel of `layer` at `g` exists and has weight above `1e-6`. -/
def Layer.Observed (layer : Layer) (g : GlobalIndex) : Prop :=
  ∃ v, layer.getVoxelPtrByGlobalIndex g = some v ∧ v.weight > 1 / 1000000

/-- Boolean form of `Layer.Observed`. -/
def Layer.isObservedAt (layer : Layer) (g : GlobalIndex) : Bool :=
  match layer.getVoxelPtrByGlobalIndex g with
  | some v => decide (v.weight > 1 / 1000000)
  | none => false

/-- Layer with the single block (-1,0,0) of 4 voxels per side, in which only the voxel
of global index (-1,0,0) is written: weight 1 and distance -1. -/
def negativeLayer : Layer :=
  { voxel_size := 1
    voxels_per_side := 4
    block_map := [(⟨-1, 0, 0⟩, ⟨fun i => if i = 3 then ⟨-1, 1⟩ else ⟨0, 0⟩⟩)] }

/-- Test of `find_unobserved_free_voxels` on the other layer: the voxel is absent or
its weight is below `1e-6`. -/
def Layer.isUnobservedAt (layer : Layer) (g : GlobalIndex) : Bool :=
  match layer.getVoxelPtrByGlobalIndex g with
  | none => true
  | some v => decide (v.weight < 1 / 1000000)

/-- One update of `(min_coords, max_coords)` by the center of the voxel `g`. -/
def boundsStep (voxel_size : ℚ) (acc : Point × Point) (g : GlobalIndex) : Point × Point :=
  (acc.1.cwiseMin (getCenterPointFromGridIndex g voxel_size),
   acc.2.cwiseMax (getCenterPointFromGridIndex g voxel_size))

/-- Layer with the single block (0,0,0) of 4 voxels per side, in which only the voxel
of global index (3,0,0) is written: weight 1 and distance 2, hence Free. -/
def freeLayer : Layer :=
  { voxel_size := 1
    voxels_per_side := 4
    block_map := [(⟨0, 0, 0⟩, ⟨fun i => if i = 3 then ⟨2, 1⟩ else ⟨0, 0⟩⟩)] }

/-- Number of pops of `g` still possible from the state `st`: its occurrences in the
open stack, plus one push as long as `g` is not in the closed set. -/
def popBudget (g : GlobalIndex) (st : SearchState) : Nat :=
  List.count g st.open_stack + (if g ∈ st.closed_list then 0 else 1)

/-! ## Block and voxel addressing -/

theorem linear_of_voxelIndex (vps linear_index : Nat) :
    computeLinearIndexFromVoxelIndex vps
      (computeVoxelIndexFromLinearIndex vps linear_index) = linear_index := by
  unfold computeLinearIndexFromVoxelIndex computeVoxelIndexFromLinearIndex
  have h1 : linear_index % (vps * vps) % vps + vps * (linear_index % (vps * vps) / vps)
      = linear_index % (vps * vps) := Nat.mod_add_div _ _
  have h2 : linear_index % (vps * vps) + vps * vps * (linear_index / (vps * vps))
      = linear_index := Nat.mod_add_div _ _
  have h3 : ((linear_index % (vps * vps) % vps : Nat) : Int)
      + (vps : Int) * (((linear_index % (vps * vps) / vps : Nat) : Int)
        + ((linear_index / (vps * vps) : Nat) : Int) * (vps : Int))
      = ((linear_index : Nat) : Int) := by
    have e : (linear_index : Int)
        = ((linear_index % (vps * vps) % vps + vps * (linear_index % (vps * vps) / vps)
            + vps * vps * (linear_index / (vps * vps)) : Nat) : Int) := by
      rw [h1, h2]
    rw [e]
    push_cast
    ring
  simp only [h3, Int.toNat_natCast]

theorem voxelIndex_bounds {vps : Nat} (hv : 0 < vps) {linear_index : Nat}
    (hl : linear_index < vps * vps * vps) :
    let v := computeVoxelIndexFromLinearIndex vps linear_index
    (0 ≤ v.x ∧ v.x < vps) ∧ (0 ≤ v.y ∧ v.y < vps) ∧ (0 ≤ v.z ∧ v.z < vps) := by
  simp only [computeVoxelIndexFromLinearIndex]
  have hvv : 0 < vps * vps := Nat.mul_pos hv hv
  refine ⟨⟨Int.natCast_nonneg _, ?_⟩, ⟨Int.natCast_nonneg _, ?_⟩, ⟨Int.natCast_nonneg _, ?_⟩⟩
  · exact_mod_cast Nat.mod_lt _ hv
  · have : linear_index % (vps * vps) < vps * vps := Nat.mod_lt _ hvv
    exact_mod_cast (Nat.div_lt_iff_lt_mul hv).2 this
  · have : linear_index / (vps * vps) < vps :=
      (Nat.div_lt_iff_lt_mul hvv).2 (by rw [Nat.mul_comm vps (vps * vps)]; exact hl)
    exact_mod_cast this

theorem ediv_block_add {vps : Nat} (hv : 0 < vps) (b r : Int) (h0 : 0 ≤ r) (h1 : r < vps) :
    (b * vps + r) / (vps : Int) = b ∧ (b * vps + r) % (vps : Int) = r := by
  have hv' : (0 : Int) < vps := by exact_mod_cast hv
  constructor
  · rw [Int.add_comm, Int.add_mul_ediv_right _ _ (ne_of_gt hv'), Int.ediv_eq_zero_of_lt h0 h1]
    simp
  · rw [Int.add_comm, Int.add_mul_emod_self, Int.emod_eq_of_lt h0 h1]

theorem block_of_global {vps : Nat} (hv : 0 < vps) (b v : Index3)
    (hx : 0 ≤ v.x ∧ v.x < vps) (hy : 0 ≤ v.y ∧ v.y < vps) (hz : 0 ≤ v.z ∧ v.z < vps) :
    getBlockIndexFromGlobalVoxelIndex (getGlobalVoxelIndexFromBlockAndVoxelIndex b v vps) vps = b
    ∧ getLocalFromGlobalVoxelIndex (getGlobalVoxelIndexFromBlockAndVoxelIndex b v vps) vps = v := by
  obtain ⟨bx, by', bz⟩ := b
  obtain ⟨vx, vy, vz⟩ := v
  simp only [getBlockIndexFromGlobalVoxelIndex, getLocalFromGlobalVoxelIndex,
    getGlobalVoxelIndexFromBlockAndVoxelIndex]
  simp only at hx hy hz
  have ex := ediv_block_add hv bx vx hx.1 hx.2
  have ey := ediv_block_add hv by' vy hy.1 hy.2
  have ez := ediv_block_add hv bz vz hz.1 hz.2
  rw [ex.1, ex.2, ey.1, ey.2, ez.1, ez.2]
  exact ⟨rfl, rfl⟩

theorem global_of_block_local (g : Index3) (vps : Nat) :
    getGlobalVoxelIndexFromBlockAndVoxelIndex (getBlockIndexFromGlobalVoxelIndex g vps)
      (getLocalFromGlobalVoxelIndex g vps) vps = g := by
  obtain ⟨gx, gy, gz⟩ := g
  simp only [getBlockIndexFromGlobalVoxelIndex, getLocalFromGlobalVoxelIndex,
    getGlobalVoxelIndexFromBlockAndVoxelIndex]
  rw [Int.mul_comm (gx / _), Int.ediv_add_emod, Int.mul_comm (gy / _), Int.ediv_add_emod,
    Int.mul_comm (gz / _), Int.ediv_add_emod]

theorem local_bounds {vps : Nat} (hv : 0 < vps) (g : Index3) :
    let v := getLocalFromGlobalVoxelIndex g vps
    (0 ≤ v.x ∧ v.x < vps) ∧ (0 ≤ v.y ∧ v.y < vps) ∧ (0 ≤ v.z ∧ v.z < vps) := by
  have hv' : (0 : Int) < vps := by exact_mod_cast hv
  simp only [getLocalFromGlobalVoxelIndex]
  exact ⟨⟨Int.emod_nonneg _ (ne_of_gt hv'), Int.emod_lt_of_pos _ hv'⟩,
    ⟨Int.emod_nonneg _ (ne_of_gt hv'), Int.emod_lt_of_pos _ hv'⟩,
    ⟨Int.emod_nonneg _ (ne_of_gt hv'), Int.emod_lt_of_pos _ hv'⟩⟩

theorem voxelIndex_of_linear {vps : Nat} (hv : 0 < vps) (v : Index3)
    (hx : 0 ≤ v.x ∧ v.x < vps) (hy : 0 ≤ v.y ∧ v.y < vps) (hz : 0 ≤ v.z ∧ v.z < vps) :
    computeLinearIndexFromVoxelIndex vps v < vps * vps * vps ∧
    computeVoxelIndexFromLinearIndex vps (computeLinearIndexFromVoxelIndex vps v) = v := by
  obtain ⟨vx, vy, vz⟩ := v
  simp only at hx hy hz
  obtain ⟨a, rfl⟩ := Int.eq_ofNat_of_zero_le hx.1
  obtain ⟨b, rfl⟩ := Int.eq_ofNat_of_zero_le hy.1
  obtain ⟨c, rfl⟩ := Int.eq_ofNat_of_zero_le hz.1
  have ha : a < vps := by exact_mod_cast hx.2
  have hb : b < vps := by exact_mod_cast hy.2
  have hc : c < vps := by exact_mod_cast hz.2
  have e : computeLinearIndexFromVoxelIndex vps ⟨a, b, c⟩ = a + vps * b + vps * vps * c := by
    unfold computeLinearIndexFromVoxelIndex
    have : ((a : Int) + (vps : Int) * ((b : Int) + (c : Int) * (vps : Int)))
        = ((a + vps * b + vps * vps * c : Nat) : Int) := by push_cast; ring
    simp only [this, Int.toNat_natCast]
  rw [e]
  have hab : a + vps * b < vps * vps := by nlinarith
  have hmod : (a + vps * b + vps * vps * c) % (vps * vps) = a + vps * b := by
    rw [Nat.add_mul_mod_self_left]; exact Nat.mod_eq_of_lt hab
  have hdiv : (a + vps * b + vps * vps * c) / (vps * vps) = c := by
    rw [Nat.add_mul_div_left _ _ (Nat.mul_pos hv hv), Nat.div_eq_of_lt hab]; simp
  refine ⟨by nlinarith, ?_⟩
  simp only [computeVoxelIndexFromLinearIndex, hmod, hdiv]
  rw [Nat.add_mul_mod_self_left, Nat.mod_eq_of_lt ha, Nat.add_mul_div_left _ _ hv,
    Nat.div_eq_of_lt ha]
  simp

/-! ## Block map lookup -/

theorem lookupBlock_mem {m : List (BlockIndex × Block)} {k : BlockIndex} {b : Block}
    (h : lookupBlock m k = some b) : (k, b) ∈ m := by
  induction m with
  | nil => simp [lookupBlock] at h
  | cons e rest ih =>
    obtain ⟨k', b'⟩ := e
    by_cases hk : k' = k
    · subst hk
      simp only [lookupBlock, if_true, Option.some.injEq] at h
      subst h
      exact List.mem_cons_self _ _
    · simp only [lookupBlock, hk, if_false] at h
      exact List.mem_cons_of_mem _ (ih h)

theorem lookupBlock_of_key {m : List (BlockIndex × Block)} {k : BlockIndex}
    (h : k ∈ m.map Prod.fst) : ∃ b, lookupBlock m k = some b := by
  induction m with
  | nil => simp at h
  | cons e rest ih =>
    obtain ⟨k', b'⟩ := e
    by_cases hk : k' = k
    · exact ⟨b', by simp [lookupBlock, hk]⟩
    · have : k ∈ rest.map Prod.fst := by
        simp only [List.map_cons, List.mem_cons] at h
        rcases h with h | h
        · exact absurd h.symm hk
        · exact h
      obtain ⟨b, hb⟩ := ih this
      exact ⟨b, by simp [lookupBlock, hk, hb]⟩

theorem isOccupied_iff (layer : Layer) (g : GlobalIndex) :
    layer.isOccupied g = true ↔ layer.Occupied g := by
  unfold Layer.isOccupied Layer.Occupied
  cases h : layer.getVoxelPtrByGlobalIndex g with
  | none => simp
  | some v =>
    simp [isObserved, visualizeOccupiedTsdfVoxels]

/-! ## The loops of `calculate_Intersection_difference` as filters -/

theorem intersectionDifferenceVoxel_eq (layer otherLayer : Layer) (index : BlockIndex)
    (block : Block) (acc : GlobalIndexVector × GlobalIndexVector) (linear_index : Nat) :
    intersectionDifferenceVoxel layer otherLayer index block acc linear_index =
      (acc.1 ++ (emitVoxel layer index block linear_index).filter otherLayer.isOccupied,
       acc.2 ++ (emitVoxel layer index block linear_index).filter
         (fun g => !otherLayer.isOccupied g)) := by
  unfold intersectionDifferenceVoxel emitVoxel
  by_cases h : isObserved (block.getVoxelByLinearIndex linear_index) layer.voxel_size = true
  · simp only [h, if_true]
    cases hv : otherLayer.getVoxelPtrByGlobalIndex
        (getGlobalVoxelIndexFromBlockAndVoxelIndex index
          (computeVoxelIndexFromLinearIndex layer.voxels_per_side linear_index)
          layer.voxels_per_side) with
    | none => simp [Layer.isOccupied, hv, List.filter]
    | some v =>
      by_cases ho : isObserved v otherLayer.voxel_size = true
      · simp [Layer.isOccupied, hv, ho, List.filter]
      · simp [Layer.isOccupied, hv, ho, List.filter]
  · simp [h]

theorem foldl_voxels_eq (layer otherLayer : Layer) (index : BlockIndex) (block : Block)
    (ls : List Nat) (acc : GlobalIndexVector × GlobalIndexVector) :
    ls.foldl (intersectionDifferenceVoxel layer otherLayer index block) acc =
      (acc.1 ++ (ls.flatMap (emitVoxel layer index block)).filter otherLayer.isOccupied,
       acc.2 ++ (ls.flatMap (emitVoxel layer index block)).filter
         (fun g => !otherLayer.isOccupied g)) := by
  induction ls generalizing acc with
  | nil => simp
  | cons l rest ih =>
    rw [List.foldl_cons, ih, intersectionDifferenceVoxel_eq]
    simp [List.flatMap_cons, List.filter_append, List.append_assoc]

theorem intersectionDifferenceBlock_eq (layer otherLayer : Layer)
    (acc : GlobalIndexVector × GlobalIndexVector) (index : BlockIndex) :
    intersectionDifferenceBlock layer otherLayer acc index =
      (acc.1 ++ (emitBlock layer index).filter otherLayer.isOccupied,
       acc.2 ++ (emitBlock layer index).filter (fun g => !otherLayer.isOccupied g)) := by
  unfold intersectionDifferenceBlock emitBlock
  cases h : layer.getBlockPtrByIndex index with
  | none => simp
  | some block => simp only [foldl_voxels_eq]

theorem foldl_blocks_eq (layer otherLayer : Layer) (ks : List BlockIndex)
    (acc : GlobalIndexVector × GlobalIndexVector) :
    ks.foldl (intersectionDifferenceBlock layer otherLayer) acc =
      (acc.1 ++ (ks.flatMap (emitBlock layer)).filter otherLayer.isOccupied,
       acc.2 ++ (ks.flatMap (emitBlock layer)).filter
         (fun g => !otherLayer.isOccupied g)) := by
  induction ks generalizing acc with
  | nil => simp
  | cons k rest ih =>
    rw [List.foldl_cons, ih, intersectionDifferenceBlock_eq]
    simp [List.flatMap_cons, List.filter_append, List.append_assoc]

theorem calculate_eq (layer otherLayer : Layer) (intersection difference : GlobalIndexVector) :
    calculate_Intersection_difference layer otherLayer intersection difference =
      (intersection ++ (emitLayer layer).filter otherLayer.isOccupied,
       difference ++ (emitLayer layer).filter (fun g => !otherLayer.isOccupied g)) := by
  unfold calculate_Intersection_difference emitLayer
  rw [foldl_blocks_eq]

/-! ## The emitted indices are the Occupied voxels, each once -/

theorem mem_emitVoxel {layer : Layer} {index : BlockIndex} {block : Block}
    {linear_index : Nat} {g : GlobalIndex} :
    g ∈ emitVoxel layer index block linear_index ↔
      isObserved (block.voxels linear_index) layer.voxel_size = true ∧
      g = getGlobalVoxelIndexFromBlockAndVoxelIndex index
        (computeVoxelIndexFromLinearIndex layer.voxels_per_side linear_index)
        layer.voxels_per_side := by
  unfold emitVoxel Block.getVoxelByLinearIndex
  by_cases h : isObserved (block.voxels linear_index) layer.voxel_size = true
  · simp [h]
  · simp [h]

theorem emitVoxel_decode {layer : Layer} (hv : 0 < layer.voxels_per_side)
    {index : BlockIndex} {block : Block} {linear_index : Nat}
    (hl : linear_index < layer.voxels_per_side * layer.voxels_per_side * layer.voxels_per_side)
    {g : GlobalIndex} (hg : g ∈ emitVoxel layer index block linear_index) :
    getBlockIndexFromGlobalVoxelIndex g layer.voxels_per_side = index ∧
    computeLinearIndexFromVoxelIndex layer.voxels_per_side
      (getLocalFromGlobalVoxelIndex g layer.voxels_per_side) = linear_index := by
  obtain ⟨_, rfl⟩ := mem_emitVoxel.1 hg
  obtain ⟨hx, hy, hz⟩ := voxelIndex_bounds hv hl
  obtain ⟨e1, e2⟩ := block_of_global hv index _ hx hy hz
  exact ⟨e1, by rw [e2, linear_of_voxelIndex]⟩

theorem mem_emitBlock {layer : Layer} {index : BlockIndex} {g : GlobalIndex} :
    g ∈ emitBlock layer index ↔
      ∃ block, layer.getBlockPtrByIndex index = some block ∧
        ∃ linear_index,
          linear_index < layer.voxels_per_side * layer.voxels_per_side * layer.voxels_per_side ∧
          g ∈ emitVoxel layer index block linear_index := by
  unfold emitBlock
  cases h : layer.getBlockPtrByIndex index with
  | none => simp
  | some block => simp [List.mem_flatMap, List.mem_range]

theorem getVoxelPtr_of_block {layer : Layer} (hv : 0 < layer.voxels_per_side)
    {index : BlockIndex} {block : Block} (hb : layer.getBlockPtrByIndex index = some block)
    {linear_index : Nat}
    (hl : linear_index < layer.voxels_per_side * layer.voxels_per_side * layer.voxels_per_side) :
    layer.getVoxelPtrByGlobalIndex
      (getGlobalVoxelIndexFromBlockAndVoxelIndex index
        (computeVoxelIndexFromLinearIndex layer.voxels_per_side linear_index)
        layer.voxels_per_side) = some (block.voxels linear_index) := by
  obtain ⟨hx, hy, hz⟩ := voxelIndex_bounds hv hl
  obtain ⟨e1, e2⟩ := block_of_global hv index _ hx hy hz
  unfold Layer.getVoxelPtrByGlobalIndex
  rw [e1, hb]
  simp only [Block.getVoxelByVoxelIndex, e2, linear_of_voxelIndex]

theorem mem_emitLayer {layer : Layer} (hwf : layer.WF) (g : GlobalIndex) :
    g ∈ emitLayer layer ↔ layer.Occupied g := by
  obtain ⟨hv, _⟩ := hwf
  rw [← isOccupied_iff]
  unfold emitLayer
  rw [List.mem_flatMap]
  constructor
  · rintro ⟨index, _, hg⟩
    obtain ⟨block, hb, linear_index, hl, hm⟩ := mem_emitBlock.1 hg
    obtain ⟨ho, rfl⟩ := mem_emitVoxel.1 hm
    unfold Layer.isOccupied
    rw [getVoxelPtr_of_block hv hb hl]
    exact ho
  · intro ho
    unfold Layer.isOccupied at ho
    cases hp : layer.getVoxelPtrByGlobalIndex g with
    | none => rw [hp] at ho; exact absurd ho (by simp)
    | some v =>
      rw [hp] at ho
      unfold Layer.getVoxelPtrByGlobalIndex at hp
      cases hb : layer.getBlockPtrByIndex
          (getBlockIndexFromGlobalVoxelIndex g layer.voxels_per_side) with
      | none => rw [hb] at hp; exact absurd hp (by simp)
      | some block =>
        rw [hb] at hp
        simp only [Option.some.injEq, Block.getVoxelByVoxelIndex] at hp
        obtain ⟨hx, hy, hz⟩ := local_bounds hv g
        obtain ⟨hl, hc⟩ := voxelIndex_of_linear hv _ hx hy hz
        refine ⟨getBlockIndexFromGlobalVoxelIndex g layer.voxels_per_side, ?_, ?_⟩
        · have := lookupBlock_mem hb
          exact List.mem_map_of_mem Prod.fst this
        · refine mem_emitBlock.2 ⟨block, hb, _, hl, mem_emitVoxel.2 ⟨?_, ?_⟩⟩
          · rw [hp]; exact ho
          · rw [hc, global_of_block_local]

theorem nodup_emitBlock {layer : Layer} (hv : 0 < layer.voxels_per_side)
    (index : BlockIndex) : (emitBlock layer index).Nodup := by
  unfold emitBlock
  cases h : layer.getBlockPtrByIndex index with
  | none => simp
  | some block =>
    simp only
    rw [List.nodup_flatMap]
    constructor
    · intro l _
      unfold emitVoxel
      split <;> simp
    · refine (List.nodup_range _).pairwise_of_forall_ne ?_
      intro a ha b hb hab
      simp only [Function.onFun]
      rw [List.disjoint_left]
      intro g hga hgb
      have ea := (emitVoxel_decode hv (List.mem_range.1 ha) hga).2
      have eb := (emitVoxel_decode hv (List.mem_range.1 hb) hgb).2
      exact hab (ea.symm.trans eb)

theorem nodup_emitLayer {layer : Layer} (hwf : layer.WF) : (emitLayer layer).Nodup := by
  obtain ⟨hv, hk⟩ := hwf
  unfold emitLayer
  rw [List.nodup_flatMap]
  refine ⟨fun k _ => nodup_emitBlock hv k, ?_⟩
  refine List.Nodup.pairwise_of_forall_ne hk ?_
  intro a _ b _ hab
  simp only [Function.onFun]
  rw [List.disjoint_left]
  intro g hga hgb
  obtain ⟨_, _, la, hla, hma⟩ := mem_emitBlock.1 hga
  obtain ⟨_, _, lb, hlb, hmb⟩ := mem_emitBlock.1 hgb
  exact hab ((emitVoxel_decode hv hla hma).1.symm.trans (emitVoxel_decode hv hlb hmb).1)

/-! ## Claims on `calculate_Intersection_difference` -/

theorem ground_truth_map_wf : ground_truth_map.WF := by
  unfold Layer.WF
  decide!

theorem observed_map_wf : observed_map.WF := by
  unfold Layer.WF
  decide!

/-- C1: called with empty output vectors on a well-formed layer `A`,
`calculate_Intersection_difference A B` returns an intersection and a difference that
contain no index twice, share no index, and together hold exactly the global indices of
the voxels of `A` classified Occupied. -/
theorem calculate_Intersection_difference_partition (A B : Layer) (hA : A.WF) :
    ((calculate_Intersection_difference A B [] []).1 ++
      (calculate_Intersection_difference A B [] []).2).Nodup ∧
    (∀ g, g ∈ (calculate_Intersection_difference A B [] []).1 →
      g ∉ (calculate_Intersection_difference A B [] []).2) ∧
    (∀ g, (g ∈ (calculate_Intersection_difference A B [] []).1 ∨
        g ∈ (calculate_Intersection_difference A B [] []).2) ↔ A.Occupied g) := by
  rw [calculate_eq]
  simp only [List.nil_append]
  have hn := nodup_emitLayer hA
  have hdisj : ∀ g, g ∈ (emitLayer A).filter B.isOccupied →
      g ∉ (emitLayer A).filter (fun g => !B.isOccupied g) := by
    intro g h1 h2
    have a := (List.mem_filter.1 h1).2
    have b := (List.mem_filter.1 h2).2
    simp [a] at b
  refine ⟨?_, hdisj, ?_⟩
  · exact List.Nodup.append (hn.filter _) (hn.filter _) (List.disjoint_left.2 hdisj)
  · intro g
    rw [← mem_emitLayer hA g]
    simp only [List.mem_filter]
    constructor
    · rintro (h | h) <;> exact h.1
    · intro h
      by_cases hb : B.isOccupied g = true
      · exact Or.inl ⟨h, hb⟩
      · exact Or.inr ⟨h, by simp [hb]⟩

theorem calculate_Intersection_difference_partition_witness :
    ground_truth_map.WF ∧
    ((calculate_Intersection_difference ground_truth_map observed_map [] []).1 ++
      (calculate_Intersection_difference ground_truth_map observed_map [] []).2).Nodup ∧
    (∀ g, g ∈ (calculate_Intersection_difference ground_truth_map observed_map [] []).1 →
      g ∉ (calculate_Intersection_difference ground_truth_map observed_map [] []).2) ∧
    (∀ g, (g ∈ (calculate_Intersection_difference ground_truth_map observed_map [] []).1 ∨
        g ∈ (calculate_Intersection_difference ground_truth_map observed_map [] []).2) ↔
      ground_truth_map.Occupied g) :=
  ⟨ground_truth_map_wf,
    calculate_Intersection_difference_partition ground_truth_map observed_map
      ground_truth_map_wf⟩

/-- C2: for a well-formed `reference` and every global index `g` Occupied in it, `g`
is emitted into the intersection iff `candidate` holds a voxel at `g` that is classified
Occupied, and into the difference iff it does not (absent, or present but not Occupied). -/
theorem calculate_Intersection_difference_membership (reference candidate : Layer)
    (hR : reference.WF) (g : GlobalIndex) (hg : reference.Occupied g) :
    (g ∈ (calculate_Intersection_difference reference candidate [] []).1 ↔
      candidate.Occupied g) ∧
    (g ∈ (calculate_Intersection_difference reference candidate [] []).2 ↔
      ¬ candidate.Occupied g) := by
  rw [calculate_eq]
  simp only [List.nil_append, List.mem_filter]
  have hm := (mem_emitLayer hR g).2 hg
  rw [← isOccupied_iff candidate g]
  constructor
  · exact ⟨fun h => h.2, fun h => ⟨hm, h⟩⟩
  · constructor
    · intro h; simpa using h.2
    · intro h; exact ⟨hm, by simpa using h⟩

theorem calculate_Intersection_difference_membership_witness :
    ground_truth_map.WF ∧ ground_truth_map.Occupied ⟨5, 3, 0⟩ ∧
    ((⟨5, 3, 0⟩ : GlobalIndex) ∈
        (calculate_Intersection_difference ground_truth_map observed_map [] []).1 ↔
      observed_map.Occupied ⟨5, 3, 0⟩) ∧
    ((⟨5, 3, 0⟩ : GlobalIndex) ∈
        (calculate_Intersection_difference ground_truth_map observed_map [] []).2 ↔
      ¬ observed_map.Occupied ⟨5, 3, 0⟩) :=
  ⟨ground_truth_map_wf, (isOccupied_iff _ _).1 (by decide!),
    calculate_Intersection_difference_membership ground_truth_map observed_map
      ground_truth_map_wf ⟨5, 3, 0⟩ ((isOccupied_iff _ _).1 (by decide!))⟩

/-- C3: on the fixture of `test_eval_metrics` (8 voxels per side, voxel size 1, ground
truth with blocks (0,0,0) and (1,0,0) and weight 1 on x in [4,12), y in [3,6), z = 0,
observed with block (0,0,0) and weight 1 on x in [5,8), y in [2,4), z = 0),
`calculate_Intersection_difference` returns 3 intersection and 21 difference indices. -/
theorem test_eval_metrics_counts :
    ground_truth_map.getAllAllocatedBlocks = [⟨0, 0, 0⟩, ⟨1, 0, 0⟩] ∧
    observed_map.getAllAllocatedBlocks = [⟨0, 0, 0⟩] ∧
    (calculate_Intersection_difference ground_truth_map observed_map [] []).1.length = 3 ∧
    (calculate_Intersection_difference ground_truth_map observed_map [] []).2.length = 21 := by
  decide!

/-! ## Claims on the metrics of `main` -/

theorem divCounts_of_ne_zero (n : Nat) {d : Nat} (h : d ≠ 0) :
    divCounts n d = .quotient ((n : ℚ) / (d : ℚ)) := by
  simp [divCounts, h]

/-- C4: for all counts with non-zero denominators the metrics of the evaluation node
are the exact quotients IoU = iRef / (iRef + dRef + dObs), recall = iObs / (iRef + dRef),
precision = iObs / (iObs + dObs), observedFraction = (iObs + dObs) / (iRef + dRef); for
the counts 3, 21, 3, 3 these are 3/27, 3/24 and 3/6, and the fixture of
`test_eval_metrics` yields exactly these counts. -/
theorem computeMetrics_formulas (iRef dRef iObs dObs : Nat)
    (hRef : iRef + dRef ≠ 0) (hObs : iObs + dObs ≠ 0) :
    computeMetrics iRef dRef iObs dObs =
      { iou := .quotient ((iRef : ℚ) / ((iRef : ℚ) + (dRef : ℚ) + (dObs : ℚ)))
        recall_ := .quotient ((iObs : ℚ) / ((iRef : ℚ) + (dRef : ℚ)))
        precision := .quotient ((iObs : ℚ) / ((iObs : ℚ) + (dObs : ℚ)))
        observed_region :=
          .quotient (((iObs : ℚ) + (dObs : ℚ)) / ((iRef : ℚ) + (dRef : ℚ))) } ∧
    computeMetrics 3 21 3 3 =
      { iou := .quotient (3 / 27), recall_ := .quotient (3 / 24),
        precision := .quotient (3 / 6), observed_region := .quotient (6 / 24) } ∧
    evaluate ground_truth_map observed_map = some (computeMetrics 3 21 3 3) := by
  have h1 : iRef + dRef + dObs ≠ 0 := by omega
  have h2 : dRef + iRef ≠ 0 := by omega
  refine ⟨?_, ?_, ?_⟩
  · simp only [computeMetrics, divCounts_of_ne_zero _ h1, divCounts_of_ne_zero _ hRef,
      divCounts_of_ne_zero _ hObs, divCounts_of_ne_zero _ h2]
    push_cast
    simp only [add_comm (dRef : ℚ) (iRef : ℚ)]
  · simp only [computeMetrics, divCounts]
    norm_num
  · decide!

theorem computeMetrics_formulas_witness :
    (3 + 21 ≠ 0) ∧ (3 + 3 ≠ 0) ∧
    (computeMetrics 3 21 3 3 =
      { iou := .quotient (((3 : Nat) : ℚ) / (((3 : Nat) : ℚ) + ((21 : Nat) : ℚ) + ((3 : Nat) : ℚ)))
        recall_ := .quotient (((3 : Nat) : ℚ) / (((3 : Nat) : ℚ) + ((21 : Nat) : ℚ)))
        precision := .quotient (((3 : Nat) : ℚ) / (((3 : Nat) : ℚ) + ((3 : Nat) : ℚ)))
        observed_region :=
          .quotient ((((3 : Nat) : ℚ) + ((3 : Nat) : ℚ)) / (((3 : Nat) : ℚ) + ((21 : Nat) : ℚ))) } ∧
    computeMetrics 3 21 3 3 =
      { iou := .quotient (3 / 27), recall_ := .quotient (3 / 24),
        precision := .quotient (3 / 6), observed_region := .quotient (6 / 24) } ∧
    evaluate ground_truth_map observed_map = some (computeMetrics 3 21 3 3)) :=
  ⟨by decide, by decide, computeMetrics_formulas 3 21 3 3 (by decide) (by decide)⟩

theorem ncard_of_list {α : Type} [DecidableEq α] (l : List α) (hn : l.Nodup) (P : α → Prop)
    (h : ∀ a, a ∈ l ↔ P a) : Set.ncard {a | P a} = l.length := by
  have e : {a | P a} = ((l.toFinset : Finset α) : Set α) := by
    ext a
    simp [h a]
  rw [e, Set.ncard_coe_Finset, List.toFinset_card_of_nodup hn]

theorem mem_intersection_iff {A B : Layer} (hA : A.WF) (g : GlobalIndex) :
    g ∈ (emitLayer A).filter B.isOccupied ↔ A.Occupied g ∧ B.Occupied g := by
  rw [List.mem_filter, mem_emitLayer hA, isOccupied_iff]

theorem mem_difference_iff {A B : Layer} (hA : A.WF) (g : GlobalIndex) :
    g ∈ (emitLayer A).filter (fun g => !B.isOccupied g) ↔ A.Occupied g ∧ ¬ B.Occupied g := by
  rw [List.mem_filter, mem_emitLayer hA, ← isOccupied_iff B]
  simp

/-- C5: for well-formed grids `G` and `O` of equal voxel size, the numerator of the IoU
is the number of indices Occupied in both grids and its denominator is the number of
indices Occupied in at least one; when some index is Occupied in either grid the
reported IoU is their quotient. -/
theorem iou_intersection_over_union (G O : Layer) (hG : G.WF) (hO : O.WF)
    (hsize : G.voxel_size = O.voxel_size) :
    (calculate_Intersection_difference G O [] []).1.length =
      Set.ncard {g | G.Occupied g ∧ O.Occupied g} ∧
    (calculate_Intersection_difference G O [] []).1.length +
      (calculate_Intersection_difference G O [] []).2.length +
      (calculate_Intersection_difference O G [] []).2.length =
      Set.ncard {g | G.Occupied g ∨ O.Occupied g} ∧
    ((∃ g, G.Occupied g ∨ O.Occupied g) →
      (evaluate G O).map Metrics.iou =
        some (.quotient ((Set.ncard {g | G.Occupied g ∧ O.Occupied g} : ℚ) /
          (Set.ncard {g | G.Occupied g ∨ O.Occupied g} : ℚ)))) := by
  have hnG := nodup_emitLayer hG
  have hnO := nodup_emitLayer hO
  have e1 : ((emitLayer G).filter O.isOccupied).length =
      Set.ncard {g | G.Occupied g ∧ O.Occupied g} :=
    (ncard_of_list _ (hnG.filter _) _ (mem_intersection_iff hG)).symm
  have e2 : ((emitLayer G).filter O.isOccupied).length +
      ((emitLayer G).filter (fun g => !O.isOccupied g)).length +
      ((emitLayer O).filter (fun g => !G.isOccupied g)).length =
      Set.ncard {g | G.Occupied g ∨ O.Occupied g} := by
    have hn : ((emitLayer G).filter O.isOccupied ++
        (emitLayer G).filter (fun g => !O.isOccupied g) ++
        (emitLayer O).filter (fun g => !G.isOccupied g)).Nodup := by
      refine List.Nodup.append (List.Nodup.append (hnG.filter _) (hnG.filter _) ?_)
        (hnO.filter _) ?_
      · rw [List.disjoint_left]
        intro g h1 h2
        exact ((mem_difference_iff hG g).1 h2).2 ((mem_intersection_iff hG g).1 h1).2
      · rw [List.disjoint_left]
        intro g h1 h2
        have hg : G.Occupied g := by
          rcases List.mem_append.1 h1 with h | h
          · exact ((mem_intersection_iff hG g).1 h).1
          · exact ((mem_difference_iff hG g).1 h).1
        exact ((mem_difference_iff hO g).1 h2).2 hg
    have hm : ∀ g, g ∈ ((emitLayer G).filter O.isOccupied ++
        (emitLayer G).filter (fun g => !O.isOccupied g) ++
        (emitLayer O).filter (fun g => !G.isOccupied g)) ↔ (G.Occupied g ∨ O.Occupied g) := by
      intro g
      rw [List.mem_append, List.mem_append, mem_intersection_iff hG, mem_difference_iff hG,
        mem_difference_iff hO]
      by_cases a : G.Occupied g <;> by_cases b : O.Occupied g <;> simp [a, b]
    rw [ncard_of_list _ hn _ hm]
    simp only [List.length_append]
  simp only [calculate_eq, List.nil_append]
  refine ⟨e1, e2, ?_⟩
  rintro ⟨g, hg⟩
  have hpos : Set.ncard {g | G.Occupied g ∨ O.Occupied g} ≠ 0 := by
    rw [← e2]
    have hm : g ∈ ((emitLayer G).filter O.isOccupied ++
        (emitLayer G).filter (fun g => !O.isOccupied g) ++
        (emitLayer O).filter (fun g => !G.isOccupied g)) := by
      rw [List.mem_append, List.mem_append, mem_intersection_iff hG, mem_difference_iff hG,
        mem_difference_iff hO]
      by_cases a : G.Occupied g <;> by_cases b : O.Occupied g <;> simp [a, b] at hg ⊢
    have := List.length_pos_of_mem hm
    simp only [List.length_append] at this
    omega
  simp only [evaluate, hsize, if_true, Option.map_some', computeMetrics, calculate_eq,
    List.nil_append]
  rw [e2, e1, divCounts_of_ne_zero _ hpos]

theorem iou_intersection_over_union_witness :
    ground_truth_map.WF ∧ observed_map.WF ∧
    ground_truth_map.voxel_size = observed_map.voxel_size ∧
    ((calculate_Intersection_difference ground_truth_map observed_map [] []).1.length =
      Set.ncard {g | ground_truth_map.Occupied g ∧ observed_map.Occupied g} ∧
    (calculate_Intersection_difference ground_truth_map observed_map [] []).1.length +
      (calculate_Intersection_difference ground_truth_map observed_map [] []).2.length +
      (calculate_Intersection_difference observed_map ground_truth_map [] []).2.length =
      Set.ncard {g | ground_truth_map.Occupied g ∨ observed_map.Occupied g} ∧
    ((∃ g, ground_truth_map.Occupied g ∨ observed_map.Occupied g) →
      (evaluate ground_truth_map observed_map).map Metrics.iou =
        some (.quotient
          ((Set.ncard {g | ground_truth_map.Occupied g ∧ observed_map.Occupied g} : ℚ) /
          (Set.ncard {g | ground_truth_map.Occupied g ∨ observed_map.Occupied g} : ℚ))))) :=
  ⟨ground_truth_map_wf, observed_map_wf, by decide!,
    iou_intersection_over_union ground_truth_map observed_map ground_truth_map_wf
      observed_map_wf (by decide!)⟩

theorem fixtureConfig_wf : fixtureConfig.WF := by
  unfold Layer.WF
  decide

theorem fixtureConfig_not_occupied (g : GlobalIndex) : ¬ fixtureConfig.Occupied g := by
  rintro ⟨v, hv, _⟩
  simp [Layer.getVoxelPtrByGlobalIndex, Layer.getBlockPtrByIndex, fixtureConfig,
    lookupBlock] at hv

theorem emitLayer_eq_nil {G : Layer} (hG : G.WF) (h : ∀ g, ¬ G.Occupied g) :
    emitLayer G = [] := by
  apply List.eq_nil_iff_forall_not_mem.2
  intro g hg
  exact h g ((mem_emitLayer hG g).1 hg)

theorem filter_isOccupied_eq_nil {G : Layer} (h : ∀ g, ¬ G.Occupied g) (l : List GlobalIndex) :
    l.filter G.isOccupied = [] ∧ l.filter (fun g => !G.isOccupied g) = l := by
  have hf : ∀ g, G.isOccupied g = false := by
    intro g
    cases hb : G.isOccupied g with
    | false => rfl
    | true => exact absurd ((isOccupied_iff G g).1 hb) (h g)
  constructor
  · apply List.filter_eq_nil_iff.2
    intro g _
    simp [hf g]
  · apply List.filter_eq_self.2
    intro g _
    simp [hf g]

/-- C6, as stated, fails: with a ground truth without any Occupied voxel (the empty map
of the fixture) and the observed map of the fixture, the observed fraction has a zero
denominator and is reported as `+infinity`, which is not the undefined value NaN. -/
theorem observed_region_infinity_counterexample :
    (∀ g, ¬ fixtureConfig.Occupied g) ∧
    (calculate_Intersection_difference fixtureConfig observed_map [] []).1.length +
      (calculate_Intersection_difference fixtureConfig observed_map [] []).2.length = 0 ∧
    (evaluate fixtureConfig observed_map).map Metrics.observed_region =
      some FloatValue.infinity ∧
    (evaluate fixtureConfig observed_map).map Metrics.observed_region ≠
      some FloatValue.nan :=
  ⟨fixtureConfig_not_occupied, by decide!, by decide!, by decide!⟩

/-- C6, amended: when the ground truth has no Occupied voxel (and the voxel sizes are
equal, so that the node evaluates), recall is NaN; if the observed grid has no Occupied
voxel either, all four metrics are NaN; otherwise the observed fraction is `+infinity`
while IoU and precision, whose denominators are then non-zero, are the quotient 0. -/
theorem evaluate_without_ground_truth (G O : Layer) (hG : G.WF) (hO : O.WF)
    (hsize : G.voxel_size = O.voxel_size) (h : ∀ g, ¬ G.Occupied g) :
    (evaluate G O).map Metrics.recall_ = some FloatValue.nan ∧
    ((∀ g, ¬ O.Occupied g) →
      evaluate G O =
        some { iou := .nan, precision := .nan, recall_ := .nan, observed_region := .nan }) ∧
    ((∃ g, O.Occupied g) →
      evaluate G O =
        some { iou := .quotient 0, precision := .quotient 0, recall_ := .nan,
               observed_region := .infinity }) := by
  have hE := emitLayer_eq_nil hG h
  obtain ⟨f1, f2⟩ := filter_isOccupied_eq_nil h (emitLayer O)
  have hev : evaluate G O = some (computeMetrics 0 0 0 (emitLayer O).length) := by
    simp only [evaluate, hsize, if_true, calculate_eq, List.nil_append, hE, f1, f2,
      List.filter_nil, List.length_nil]
  rw [hev]
  refine ⟨by simp [computeMetrics, divCounts], ?_, ?_⟩
  · intro hn
    rw [emitLayer_eq_nil hO hn]
    simp [computeMetrics, divCounts]
  · rintro ⟨g, hg⟩
    have hm := (mem_emitLayer hO g).2 hg
    have hpos : (emitLayer O).length ≠ 0 := Nat.pos_iff_ne_zero.1 (List.length_pos_of_mem hm)
    simp [computeMetrics, divCounts, hpos]

theorem evaluate_without_ground_truth_witness :
    fixtureConfig.WF ∧ observed_map.WF ∧
    fixtureConfig.voxel_size = observed_map.voxel_size ∧
    (∀ g, ¬ fixtureConfig.Occupied g) ∧
    ((evaluate fixtureConfig observed_map).map Metrics.recall_ = some FloatValue.nan ∧
    ((∀ g, ¬ observed_map.Occupied g) →
      evaluate fixtureConfig observed_map =
        some { iou := .nan, precision := .nan, recall_ := .nan, observed_region := .nan }) ∧
    ((∃ g, observed_map.Occupied g) →
      evaluate fixtureConfig observed_map =
        some { iou := .quotient 0, precision := .quotient 0, recall_ := .nan,
               observed_region := .infinity })) :=
  ⟨fixtureConfig_wf, observed_map_wf, by decide!, fixtureConfig_not_occupied,
    evaluate_without_ground_truth fixtureConfig observed_map fixtureConfig_wf observed_map_wf
      (by decide!) fixtureConfig_not_occupied⟩

/-! ## Claims on `voxelState` -/

theorem voxelState_eq (index : GlobalIndex) (layer : Layer) :
    voxelState index layer =
      match layer.getVoxelPtrByGlobalIndex index with
      | some voxel =>
        if voxel.weight > 1 / 1000000 then
          if voxel.distance > layer.voxel_size then 0 else 1
        else 2
      | none => 2 := by
  unfold voxelState Layer.getVoxelPtrByGlobalIndex getBlockAndVoxelIndexFromGlobalVoxelIndex
  cases h : layer.getBlockPtrByIndex
      (getBlockIndexFromGlobalVoxelIndex index layer.voxels_per_side) with
  | none => simp only [h]
  | some block => simp only [h]

theorem voxelState_range (index : GlobalIndex) (layer : Layer) :
    voxelState index layer = 0 ∨ voxelState index layer = 1 ∨ voxelState index layer = 2 := by
  rw [voxelState_eq]
  generalize (1 / 1000000 : ℚ) = ε
  cases layer.getVoxelPtrByGlobalIndex index with
  | none => simp
  | some v =>
    by_cases hw : v.weight > ε
    · by_cases hd : v.distance > layer.voxel_size
      · simp [hw, hd]
      · simp [hw, hd]
    · simp [hw]

/-- C7: `voxelState` returns exactly one of 0, 1, 2 for every index and layer: 0 (Free)
iff the block is allocated, the weight is above 1e-6 and the distance exceeds the voxel
size; 1 (Occupied) iff the block is allocated, the weight is above 1e-6 and the distance
is at or below the voxel size; 2 (Unknown) in every other case, in particular when the
owning block is not allocated. -/
theorem voxelState_classification (index : GlobalIndex) (layer : Layer) :
    (voxelState index layer = 0 ∨ voxelState index layer = 1 ∨ voxelState index layer = 2) ∧
    (voxelState index layer = 0 ↔
      ∃ v, layer.getVoxelPtrByGlobalIndex index = some v ∧
        v.weight > 1 / 1000000 ∧ v.distance > layer.voxel_size) ∧
    (voxelState index layer = 1 ↔
      ∃ v, layer.getVoxelPtrByGlobalIndex index = some v ∧
        v.weight > 1 / 1000000 ∧ v.distance ≤ layer.voxel_size) ∧
    (voxelState index layer = 2 ↔
      ¬ ∃ v, layer.getVoxelPtrByGlobalIndex index = some v ∧ v.weight > 1 / 1000000) ∧
    (layer.getBlockPtrByIndex
        (getBlockIndexFromGlobalVoxelIndex index layer.voxels_per_side) = none →
      voxelState index layer = 2) := by
  have hnone : layer.getBlockPtrByIndex
        (getBlockIndexFromGlobalVoxelIndex index layer.voxels_per_side) = none →
      layer.getVoxelPtrByGlobalIndex index = none := by
    intro h
    simp [Layer.getVoxelPtrByGlobalIndex, h]
  rw [voxelState_eq]
  generalize (1 / 1000000 : ℚ) = ε
  cases h : layer.getVoxelPtrByGlobalIndex index with
  | none => simp
  | some v =>
    have hb : ¬ layer.getBlockPtrByIndex
        (getBlockIndexFromGlobalVoxelIndex index layer.voxels_per_side) = none := by
      intro hn
      rw [hnone hn] at h
      exact absurd h (by simp)
    by_cases hw : v.weight > ε
    · by_cases hd : v.distance > layer.voxel_size
      · simp [hw, hd, hb, not_le.2 hd]
      · simp [hw, hd, hb, not_lt.1 hd]
    · simp [hw, hb]

/-! ## Adjacency and the offset table -/

theorem Index3.add_x (a b : Index3) : (a + b).x = a.x + b.x := rfl

theorem Index3.add_y (a b : Index3) : (a + b).y = a.y + b.y := rfl

theorem Index3.add_z (a b : Index3) : (a + b).z = a.z + b.z := rfl

theorem offsets_sound : ∀ o ∈ kNeighborOffsets,
    (-1 ≤ o.x ∧ o.x ≤ 1) ∧ (-1 ≤ o.y ∧ o.y ≤ 1) ∧ (-1 ≤ o.z ∧ o.z ≤ 1) ∧
      ¬ (o.x = 0 ∧ o.y = 0 ∧ o.z = 0) := by
  decide

theorem offsets_complete (dx dy dz : Int) (hx : -1 ≤ dx ∧ dx ≤ 1) (hy : -1 ≤ dy ∧ dy ≤ 1)
    (hz : -1 ≤ dz ∧ dz ≤ 1) (hne : ¬ (dx = 0 ∧ dy = 0 ∧ dz = 0)) :
    (⟨dx, dy, dz⟩ : Index3) ∈ kNeighborOffsets := by
  have ex : dx = -1 ∨ dx = 0 ∨ dx = 1 := by omega
  have ey : dy = -1 ∨ dy = 0 ∨ dy = 1 := by omega
  have ez : dz = -1 ∨ dz = 0 ∨ dz = 1 := by omega
  rcases ex with rfl | rfl | rfl <;> rcases ey with rfl | rfl | rfl <;>
    rcases ez with rfl | rfl | rfl <;> first | decide | exact absurd ⟨rfl, rfl, rfl⟩ hne

theorem adjacent_iff_offset (a b : GlobalIndex) :
    Adjacent26 a b ↔ ∃ o ∈ kNeighborOffsets, b = a + o := by
  constructor
  · rintro ⟨hne, hx, hy, hz⟩
    rw [abs_le] at hx hy hz
    refine ⟨⟨b.x - a.x, b.y - a.y, b.z - a.z⟩, offsets_complete _ _ _ hx hy hz ?_, ?_⟩
    · rintro ⟨e1, e2, e3⟩
      apply hne
      obtain ⟨ax, ay, az⟩ := a
      obtain ⟨bx, by', bz⟩ := b
      simp only at e1 e2 e3
      simp only [Index3.mk.injEq]
      omega
    · obtain ⟨ax, ay, az⟩ := a
      obtain ⟨bx, by', bz⟩ := b
      show (⟨bx, by', bz⟩ : Index3) = ⟨ax + (bx - ax), ay + (by' - ay), az + (bz - az)⟩
      simp only [Index3.mk.injEq]
      omega
  · rintro ⟨o, ho, rfl⟩
    obtain ⟨hx, hy, hz, hne⟩ := offsets_sound o ho
    refine ⟨?_, ?_, ?_, ?_⟩
    · intro h
      apply hne
      have h1 := congrArg Index3.x h
      have h2 := congrArg Index3.y h
      have h3 := congrArg Index3.z h
      rw [Index3.add_x] at h1
      rw [Index3.add_y] at h2
      rw [Index3.add_z] at h3
      omega
    · rw [Index3.add_x, abs_le]; omega
    · rw [Index3.add_y, abs_le]; omega
    · rw [Index3.add_z, abs_le]; omega

theorem traversable_iff (layer : Layer) (v : GlobalIndex) :
    Traversable layer v ↔ voxelState v layer ≠ 1 := by
  unfold Traversable
  rcases voxelState_range v layer with h | h | h <;> simp [h]

/-! ## One expansion of the frontier search -/

theorem visited_refl (layer : Layer) (current : GlobalIndex) (st : SearchState) :
    Visited layer current [] st st where
  closed_mono := fun _ h => h
  closed_new := fun _ h => Or.inl h
  stack_mono := fun _ h => h
  stack_new := fun _ h => Or.inl h
  done := fun _ h => absurd h (List.not_mem_nil _)
  obstacles_ext := ⟨[], by simp, fun _ h => absurd h (List.not_mem_nil _)⟩
  nodup := fun h => h
  count := rfl

theorem visited_single (layer : Layer) (current : GlobalIndex) (st : SearchState)
    (o : GlobalIndex) :
    Visited layer current [o] st (visitNeighbor layer current st o) := by
  unfold visitNeighbor
  by_cases hc : current + o ∈ st.closed_list
  · simp only [hc, if_true]
    exact
      { closed_mono := fun _ h => h
        closed_new := fun _ h => Or.inl h
        stack_mono := fun _ h => h
        stack_new := fun _ h => Or.inl h
        done := by
          intro o' ho' _
          rw [List.mem_singleton.1 ho']
          exact hc
        obstacles_ext := ⟨[], by simp, fun _ h => absurd h (List.not_mem_nil _)⟩
        nodup := fun h => h
        count := rfl }
  · simp only [hc, if_false]
    by_cases ht : voxelState (current + o) layer = 0 ∨ voxelState (current + o) layer = 2
    · simp only [ht, if_true]
      exact
        { closed_mono := fun _ h => List.mem_append_left _ h
          closed_new := by
            intro v hv
            rcases List.mem_append.1 hv with h | h
            · exact Or.inl h
            · rw [List.mem_singleton.1 h]
              exact Or.inr ⟨⟨o, List.mem_singleton_self _, rfl⟩, ht, List.mem_cons_self _ _⟩
          stack_mono := fun _ h => List.mem_cons_of_mem _ h
          stack_new := by
            intro u hu
            rcases List.mem_cons.1 hu with h | h
            · exact Or.inr (by rw [h]; exact List.mem_append_right _ (List.mem_singleton_self _))
            · exact Or.inl h
          done := by
            intro o' ho' _
            rw [List.mem_singleton.1 ho']
            exact List.mem_append_right _ (List.mem_singleton_self _)
          obstacles_ext := ⟨[], by simp, fun _ h => absurd h (List.not_mem_nil _)⟩
          nodup := by
            intro h
            exact List.Nodup.append h (List.nodup_singleton _)
              (by
                rw [List.disjoint_left]
                intro a ha hb
                rw [List.mem_singleton.1 hb] at ha
                exact hc ha)
          count := by
            simp only [List.length_cons, List.length_append, List.length_nil]
            omega }
    · simp only [ht, if_false]
      exact
        { closed_mono := fun _ h => h
          closed_new := fun _ h => Or.inl h
          stack_mono := fun _ h => h
          stack_new := fun _ h => Or.inl h
          done := by
            intro o' ho' h
            rw [List.mem_singleton.1 ho'] at h
            exact absurd h ht
          obstacles_ext := by
            refine ⟨[current + o], rfl, ?_⟩
            intro g hg
            rw [List.mem_singleton.1 hg]
            rcases voxelState_range (current + o) layer with h | h | h
            · exact absurd (Or.inl h) ht
            · exact h
            · exact absurd (Or.inr h) ht
          nodup := fun h => h
          count := rfl }

theorem visited_trans {layer : Layer} {current : GlobalIndex} {os₁ os₂ : List GlobalIndex}
    {st st₁ st₂ : SearchState} (h₁ : Visited layer current os₁ st st₁)
    (h₂ : Visited layer current os₂ st₁ st₂) :
    Visited layer current (os₁ ++ os₂) st st₂ where
  closed_mono := fun v h => h₂.closed_mono v (h₁.closed_mono v h)
  closed_new := by
    intro v hv
    rcases h₂.closed_new v hv with h | ⟨⟨o, ho, e⟩, ht, hs⟩
    · rcases h₁.closed_new v h with h' | ⟨⟨o, ho, e⟩, ht, hs⟩
      · exact Or.inl h'
      · exact Or.inr ⟨⟨o, List.mem_append_left _ ho, e⟩, ht, h₂.stack_mono v hs⟩
    · exact Or.inr ⟨⟨o, List.mem_append_right _ ho, e⟩, ht, hs⟩
  stack_mono := fun u h => h₂.stack_mono u (h₁.stack_mono u h)
  stack_new := by
    intro u hu
    rcases h₂.stack_new u hu with h | h
    · rcases h₁.stack_new u h with h' | h'
      · exact Or.inl h'
      · exact Or.inr (h₂.closed_mono u h')
    · exact Or.inr h
  done := by
    intro o ho ht
    rcases List.mem_append.1 ho with h | h
    · exact h₂.closed_mono _ (h₁.done o h ht)
    · exact h₂.done o h ht
  obstacles_ext := by
    obtain ⟨n₁, e₁, p₁⟩ := h₁.obstacles_ext
    obtain ⟨n₂, e₂, p₂⟩ := h₂.obstacles_ext
    refine ⟨n₁ ++ n₂, by rw [e₂, e₁, List.append_assoc], ?_⟩
    intro g hg
    rcases List.mem_append.1 hg with h | h
    · exact p₁ g h
    · exact p₂ g h
  nodup := fun h => h₂.nodup (h₁.nodup h)
  count := by
    have a := h₁.count
    have b := h₂.count
    omega

theorem visited_foldl (layer : Layer) (current : GlobalIndex) (os : List GlobalIndex)
    (st : SearchState) :
    Visited layer current os st (os.foldl (visitNeighbor layer current) st) := by
  induction os generalizing st with
  | nil => exact visited_refl layer current st
  | cons o rest ih =>
    rw [List.foldl_cons]
    exact visited_trans (visited_single layer current st o) (ih _)

theorem visited_expand (layer : Layer) (current : GlobalIndex) (st : SearchState) :
    Visited layer current kNeighborOffsets st (expandCurrent layer current st) :=
  visited_foldl layer current kNeighborOffsets st

/-! ## Chains and paths -/

theorem Path.snoc {layer : Layer} {a u v : GlobalIndex} (h : Path layer a u)
    (hadj : Adjacent26 u v) (ht : Traversable layer v) : Path layer a v := by
  induction h with
  | single h1 h2 => exact Path.cons h1 h2 (Path.single hadj ht)
  | cons h1 h2 _ ih => exact Path.cons h1 h2 (ih hadj)

theorem chainReachable_iff_path (layer : Layer) (a v : GlobalIndex) :
    ChainReachable layer a v ↔ Path layer a v := by
  constructor
  · rintro ⟨chain, hc, ht, hl⟩
    induction chain generalizing a with
    | nil => simp at hl
    | cons u rest ih =>
      rw [List.chain_cons] at hc
      have htu : Traversable layer u := ht u (List.mem_cons_self _ _)
      cases rest with
      | nil =>
        simp only [List.getLast?_singleton, Option.some.injEq] at hl
        rw [← hl]
        exact Path.single hc.1 htu
      | cons w rest' =>
        rw [List.getLast?_cons_cons] at hl
        exact Path.cons hc.1 htu
          (ih u hc.2 (fun x hx => ht x (List.mem_cons_of_mem _ hx)) hl)
  · intro h
    induction h with
    | @single a v h1 h2 =>
      refine ⟨[v], List.chain_cons.2 ⟨h1, List.Chain.nil⟩, ?_, rfl⟩
      intro u hu
      rw [List.mem_singleton.1 hu]
      exact h2
    | @cons a u v h1 h2 _ ih =>
      obtain ⟨chain, hc, ht, hl⟩ := ih
      refine ⟨u :: chain, List.chain_cons.2 ⟨h1, hc⟩, ?_, ?_⟩
      · intro x hx
        rcases List.mem_cons.1 hx with e | e
        · rw [e]; exact h2
        · exact ht x e
      · cases chain with
        | nil => simp at hl
        | cons w rest => rw [List.getLast?_cons_cons]; exact hl

/-! ## The search loop -/

theorem searchLoop_nil (layer : Layer) (fuel : Nat) {st : SearchState}
    (h : st.open_stack = []) : searchLoop layer fuel st = some st := by
  unfold searchLoop
  simp only [h]

theorem searchLoop_zero (layer : Layer) {st : SearchState} {current : GlobalIndex}
    {rest : List GlobalIndex} (h : st.open_stack = current :: rest) :
    searchLoop layer 0 st = none := by
  unfold searchLoop
  simp only [h]

theorem searchLoop_succ (layer : Layer) (fuel : Nat) {st : SearchState}
    {current : GlobalIndex} {rest : List GlobalIndex} (h : st.open_stack = current :: rest) :
    searchLoop layer (fuel + 1) st =
      searchLoop layer fuel (expandCurrent layer current { st with open_stack := rest }) := by
  conv_lhs => unfold searchLoop
  simp only [h]

theorem searchInv_init (layer : Layer) (seed : GlobalIndex) (obstacles : GlobalIndexVector) :
    SearchInv layer seed ⟨[seed], [], obstacles⟩ := by
  refine ⟨?_, ?_, ?_, List.nodup_nil⟩
  · intro v hv
    exact absurd hv (List.not_mem_nil _)
  · intro u hu
    exact Or.inl (List.mem_singleton.1 hu)
  · intro u hu
    rcases hu with h | h
    · exact Or.inl (by rw [h]; exact List.mem_singleton_self _)
    · exact absurd h (List.not_mem_nil _)

theorem searchInv_step {layer : Layer} {seed : GlobalIndex} {st : SearchState}
    (hinv : SearchInv layer seed st) {current : GlobalIndex} {rest : List GlobalIndex}
    (hs : st.open_stack = current :: rest) :
    SearchInv layer seed (expandCurrent layer current { st with open_stack := rest }) := by
  obtain ⟨i1, i2, i3, i4⟩ := hinv
  have V := visited_expand layer current { st with open_stack := rest }
  have hcur : current = seed ∨ current ∈ st.closed_list :=
    i2 current (by rw [hs]; exact List.mem_cons_self _ _)
  refine ⟨?_, ?_, ?_, V.nodup i4⟩
  · intro v hv
    rcases V.closed_new v hv with h | ⟨⟨o, ho, e⟩, ht, _⟩
    · exact i1 v h
    · have hadj : Adjacent26 current v := (adjacent_iff_offset current v).2 ⟨o, ho, e⟩
      rcases hcur with h | h
      · rw [← h]; exact Path.single hadj ht
      · exact (i1 current h).snoc hadj ht
  · intro u hu
    rcases V.stack_new u hu with h | h
    · have hu' : u ∈ st.open_stack := by rw [hs]; exact List.mem_cons_of_mem _ h
      rcases i2 u hu' with e | e
      · exact Or.inl e
      · exact Or.inr (V.closed_mono u e)
    · exact Or.inr h
  · intro u hu
    have hold : (u = seed ∨ u ∈ st.closed_list) →
        u ∈ (expandCurrent layer current { st with open_stack := rest }).open_stack ∨
        Expanded layer u
          (expandCurrent layer current { st with open_stack := rest }).closed_list := by
      intro h
      rcases i3 u h with hst | hex
      · rw [hs] at hst
        rcases List.mem_cons.1 hst with e | e
        · right
          intro w hadj ht
          obtain ⟨o, ho, ew⟩ := (adjacent_iff_offset u w).1 hadj
          rw [ew, e]
          rw [ew, e] at ht
          exact V.done o ho ht
        · exact Or.inl (V.stack_mono u e)
      · right
        intro w hadj ht
        exact V.closed_mono w (hex w hadj ht)
    rcases hu with h | h
    · exact hold (Or.inl h)
    · rcases V.closed_new u h with h' | ⟨_, _, hst⟩
      · exact hold (Or.inr h')
      · exact Or.inl hst

theorem searchLoop_inv {layer : Layer} {seed : GlobalIndex} (fuel : Nat) {st st' : SearchState}
    (hinv : SearchInv layer seed st) (h : searchLoop layer fuel st = some st') :
    SearchInv layer seed st' ∧ st'.open_stack = [] := by
  induction fuel generalizing st with
  | zero =>
    cases hs : st.open_stack with
    | nil =>
      rw [searchLoop_nil layer 0 hs] at h
      cases h
      exact ⟨hinv, hs⟩
    | cons c rest =>
      rw [searchLoop_zero layer hs] at h
      cases h
  | succ n ih =>
    cases hs : st.open_stack with
    | nil =>
      rw [searchLoop_nil layer (n + 1) hs] at h
      cases h
      exact ⟨hinv, hs⟩
    | cons c rest =>
      rw [searchLoop_succ layer n hs] at h
      exact ih (searchInv_step hinv hs) h

theorem searchLoop_obstacles {layer : Layer} (fuel : Nat) {st st' : SearchState}
    (h : searchLoop layer fuel st = some st') :
    ∃ new, st'.obstacles = st.obstacles ++ new ∧ ∀ g ∈ new, voxelState g layer = 1 := by
  induction fuel generalizing st with
  | zero =>
    cases hs : st.open_stack with
    | nil =>
      rw [searchLoop_nil layer 0 hs] at h
      cases h
      exact ⟨[], by simp, fun _ hg => absurd hg (List.not_mem_nil _)⟩
    | cons c rest =>
      rw [searchLoop_zero layer hs] at h
      cases h
  | succ n ih =>
    cases hs : st.open_stack with
    | nil =>
      rw [searchLoop_nil layer (n + 1) hs] at h
      cases h
      exact ⟨[], by simp, fun _ hg => absurd hg (List.not_mem_nil _)⟩
    | cons c rest =>
      rw [searchLoop_succ layer n hs] at h
      obtain ⟨n₂, e₂, p₂⟩ := ih h
      obtain ⟨n₁, e₁, p₁⟩ := (visited_expand layer c { st with open_stack := rest }).obstacles_ext
      refine ⟨n₁ ++ n₂, by rw [e₂, e₁, List.append_assoc], ?_⟩
      intro g hg
      rcases List.mem_append.1 hg with hg | hg
      · exact p₁ g hg
      · exact p₂ g hg

theorem searchInv_final {layer : Layer} {seed : GlobalIndex} {st : SearchState}
    (hinv : SearchInv layer seed st) (hs : st.open_stack = []) (v : GlobalIndex) :
    v ∈ st.closed_list ↔ Path layer seed v := by
  obtain ⟨i1, _, i3, _⟩ := hinv
  have hexp : ∀ u, (u = seed ∨ u ∈ st.closed_list) → Expanded layer u st.closed_list := by
    intro u hu
    rcases i3 u hu with h | h
    · rw [hs] at h
      exact absurd h (List.not_mem_nil _)
    · exact h
  constructor
  · exact i1 v
  · intro hp
    have key : ∀ a w, Path layer a w → (a = seed ∨ a ∈ st.closed_list) →
        w ∈ st.closed_list := by
      intro a w hpath
      induction hpath with
      | single h1 h2 => intro ha; exact hexp _ ha _ h1 h2
      | cons h1 h2 _ ih => intro ha; exact ih (Or.inr (hexp _ ha _ h1 h2))
    exact key seed v hp (Or.inl rfl)

/-! ## Claims on `computeFrontierCandidates` -/

theorem Path.traversable {layer : Layer} {a v : GlobalIndex} (h : Path layer a v) :
    Traversable layer v := by
  induction h with
  | single _ h2 => exact h2
  | cons _ _ _ ih => exact ih

theorem computeFrontierCandidates_finished {layer : Layer} {initial_point : Point}
    {voxels obstacles : GlobalIndexVector} {fuel : Nat} {voxels' obstacles' : GlobalIndexVector}
    (h : computeFrontierCandidates layer initial_point voxels obstacles fuel =
      .finished voxels' obstacles') :
    0 < layer.voxel_size ∧
    ∃ st, searchLoop layer fuel
        ⟨[indexFromPoint initial_point (1 / layer.voxel_size)], [], obstacles⟩ = some st ∧
      voxels' = voxels ++ st.closed_list ∧ obstacles' = st.obstacles := by
  unfold computeFrontierCandidates at h
  by_cases hv : layer.voxel_size > 0
  · simp only [hv, if_true] at h
    refine ⟨hv, ?_⟩
    cases hs : searchLoop layer fuel
        ⟨[indexFromPoint initial_point (1 / layer.voxel_size)], [], obstacles⟩ with
    | none => rw [hs] at h; cases h
    | some st =>
      rw [hs] at h
      simp only [FrontierResult.finished.injEq] at h
      exact ⟨st, rfl, h.1.symm, h.2.symm⟩
  · simp only [hv, if_false] at h
    cases h

theorem computeFrontierCandidates_of_search {layer : Layer} {initial_point : Point}
    {voxels obstacles : GlobalIndexVector} {fuel : Nat} {st : SearchState}
    (hpos : 0 < layer.voxel_size)
    (hs : searchLoop layer fuel
      ⟨[indexFromPoint initial_point (1 / layer.voxel_size)], [], obstacles⟩ = some st) :
    computeFrontierCandidates layer initial_point voxels obstacles fuel =
      .finished (voxels ++ st.closed_list) st.obstacles := by
  unfold computeFrontierCandidates
  have hv : layer.voxel_size > 0 := hpos
  simp only [hv, if_true]
  rw [hs]

theorem sealed_run :
    computeFrontierCandidates sealedLayer sealedStart [] [] 3 =
      .finished [⟨2, 1, 1⟩, ⟨1, 1, 1⟩]
        (computeFrontierCandidates sealedLayer sealedStart [] [] 3).obstaclesOf := by
  decide!

/-- C8: whenever `computeFrontierCandidates` returns, the indices it appended to the
explored output are never classified Occupied by `voxelState`, and every index it
appended to the obstacle output is classified Occupied. -/
theorem computeFrontierCandidates_classes (layer : Layer) (initial_point : Point)
    (voxels obstacles : GlobalIndexVector) (fuel : Nat)
    (voxels' obstacles' : GlobalIndexVector)
    (h : computeFrontierCandidates layer initial_point voxels obstacles fuel =
      .finished voxels' obstacles') :
    ∃ explored found, voxels' = voxels ++ explored ∧ obstacles' = obstacles ++ found ∧
      (∀ v ∈ explored, voxelState v layer ≠ 1) ∧ (∀ g ∈ found, voxelState g layer = 1) := by
  obtain ⟨_, st, hs, e1, e2⟩ := computeFrontierCandidates_finished h
  obtain ⟨hinv, _⟩ := searchLoop_inv fuel (searchInv_init layer _ obstacles) hs
  obtain ⟨found, e3, hfound⟩ := searchLoop_obstacles fuel hs
  refine ⟨st.closed_list, found, e1, by rw [e2, e3], ?_, hfound⟩
  intro v hv
  exact (traversable_iff layer v).1 (hinv.1 v hv).traversable

theorem computeFrontierCandidates_classes_witness :
    computeFrontierCandidates sealedLayer sealedStart [] [] 3 =
      .finished [⟨2, 1, 1⟩, ⟨1, 1, 1⟩]
        (computeFrontierCandidates sealedLayer sealedStart [] [] 3).obstaclesOf ∧
    ∃ explored found, [⟨2, 1, 1⟩, ⟨1, 1, 1⟩] = ([] : GlobalIndexVector) ++ explored ∧
      (computeFrontierCandidates sealedLayer sealedStart [] [] 3).obstaclesOf =
        ([] : GlobalIndexVector) ++ found ∧
      (∀ v ∈ explored, voxelState v sealedLayer ≠ 1) ∧
      (∀ g ∈ found, voxelState g sealedLayer = 1) :=
  ⟨sealed_run,
    computeFrontierCandidates_classes sealedLayer sealedStart [] [] 3 _ _ sealed_run⟩

/-- C10: whenever `computeFrontierCandidates`, called with an empty explored vector,
returns, an index `v` is in the explored output iff there is a chain
`seed = v0, v1, ..., vk = v`, `k ≥ 1`, of 26-adjacent indices in which every `v1 .. vk`
is classified Free or Unknown; `seed` is the index of the start point. -/
theorem computeFrontierCandidates_explored (layer : Layer) (initial_point : Point)
    (obstacles : GlobalIndexVector) (fuel : Nat) (voxels' obstacles' : GlobalIndexVector)
    (h : computeFrontierCandidates layer initial_point [] obstacles fuel =
      .finished voxels' obstacles') (v : GlobalIndex) :
    v ∈ voxels' ↔
      ChainReachable layer (indexFromPoint initial_point (1 / layer.voxel_size)) v := by
  obtain ⟨_, st, hs, e1, _⟩ := computeFrontierCandidates_finished h
  obtain ⟨hinv, hempty⟩ := searchLoop_inv fuel (searchInv_init layer _ obstacles) hs
  rw [e1, List.nil_append, searchInv_final hinv hempty, chainReachable_iff_path]

theorem computeFrontierCandidates_explored_witness :
    computeFrontierCandidates sealedLayer sealedStart [] [] 3 =
      .finished [⟨2, 1, 1⟩, ⟨1, 1, 1⟩]
        (computeFrontierCandidates sealedLayer sealedStart [] [] 3).obstaclesOf ∧
    ((⟨1, 1, 1⟩ : GlobalIndex) ∈ ([⟨2, 1, 1⟩, ⟨1, 1, 1⟩] : GlobalIndexVector) ↔
      ChainReachable sealedLayer
        (indexFromPoint sealedStart (1 / sealedLayer.voxel_size)) ⟨1, 1, 1⟩) :=
  ⟨sealed_run,
    computeFrontierCandidates_explored sealedLayer sealedStart [] 3 _ _ sealed_run ⟨1, 1, 1⟩⟩

/-! ## Termination of the frontier search -/

theorem searchLoop_diverges {layer : Layer} (hT : ∀ v, Traversable layer v) (fuel : Nat)
    (st : SearchState)
    (hJ : ∃ u ∈ st.open_stack, ∀ v ∈ st.closed_list, v.x ≤ u.x) :
    searchLoop layer fuel st = none := by
  induction fuel generalizing st with
  | zero =>
    obtain ⟨u, hu, _⟩ := hJ
    cases hs : st.open_stack with
    | nil => rw [hs] at hu; exact absurd hu (List.not_mem_nil _)
    | cons c rest => exact searchLoop_zero layer hs
  | succ n ih =>
    obtain ⟨u, hu, hmax⟩ := hJ
    cases hs : st.open_stack with
    | nil => rw [hs] at hu; exact absurd hu (List.not_mem_nil _)
    | cons c rest =>
      rw [searchLoop_succ layer n hs]
      apply ih
      have V := visited_expand layer c { st with open_stack := rest }
      have hbound : ∀ v ∈ (expandCurrent layer c { st with open_stack := rest }).closed_list,
          v ∈ st.closed_list ∨ v.x ≤ c.x + 1 := by
        intro v hv
        rcases V.closed_new v hv with h | ⟨⟨o, ho, e⟩, _, _⟩
        · exact Or.inl h
        · right
          have := (offsets_sound o ho).1.2
          rw [e, Index3.add_x]
          omega
      have hmem : (⟨1, 0, 0⟩ : GlobalIndex) ∈ kNeighborOffsets := by decide
      have hw := V.done ⟨1, 0, 0⟩ hmem (hT _)
      have hwx : (c + (⟨1, 0, 0⟩ : GlobalIndex)).x = c.x + 1 := Index3.add_x _ _
      by_cases hle : c.x + 1 ≤ u.x
      · have hne : u ≠ c := by
          intro e
          rw [e] at hle
          omega
        have hur : u ∈ rest := by
          rw [hs] at hu
          rcases List.mem_cons.1 hu with e | e
          · exact absurd e hne
          · exact e
        refine ⟨u, V.stack_mono u hur, ?_⟩
        intro v hv
        rcases hbound v hv with h | h
        · exact hmax v h
        · omega
      · have hwnew : c + (⟨1, 0, 0⟩ : GlobalIndex) ∉ st.closed_list := by
          intro hin
          have := hmax _ hin
          omega
        rcases V.closed_new _ hw with h | ⟨_, _, hst⟩
        · exact absurd h hwnew
        · refine ⟨_, hst, ?_⟩
          intro v hv
          rcases hbound v hv with h | h
          · have := hmax v h
            omega
          · omega

theorem fixtureConfig_traversable (v : GlobalIndex) : Traversable fixtureConfig v := by
  right
  rw [voxelState_eq]
  simp [Layer.getVoxelPtrByGlobalIndex, Layer.getBlockPtrByIndex, fixtureConfig, lookupBlock]

/-- C9, as stated, fails: on the empty map of the fixture (no allocated block, voxel
size 1) the flood fill started at the origin never empties its open stack, whatever the
number of pops. -/
theorem frontier_search_diverges_counterexample :
    fixtureConfig.block_map = [] ∧ 0 < fixtureConfig.voxel_size ∧
    ¬ ∃ fuel voxels obstacles,
      computeFrontierCandidates fixtureConfig ⟨0, 0, 0⟩ [] [] fuel =
        .finished voxels obstacles := by
  refine ⟨rfl, by decide!, ?_⟩
  rintro ⟨fuel, voxels, obstacles, h⟩
  obtain ⟨_, st, hs, _, _⟩ := computeFrontierCandidates_finished h
  rw [searchLoop_diverges fixtureConfig_traversable fuel _
    ⟨_, List.mem_singleton_self _, fun v hv => absurd hv (List.not_mem_nil _)⟩] at hs
  cases hs

theorem searchLoop_terminates {layer : Layer} {seed : GlobalIndex}
    (R : Finset GlobalIndex) (hR : ∀ v, Path layer seed v → v ∈ R) (fuel : Nat)
    (st : SearchState) (hinv : SearchInv layer seed st)
    (hfuel : R.card + st.open_stack.length ≤ fuel + st.closed_list.length) :
    ∃ st', searchLoop layer fuel st = some st' := by
  have hcard : ∀ s : SearchState, SearchInv layer seed s → s.closed_list.length ≤ R.card := by
    intro s hs
    rw [← List.toFinset_card_of_nodup hs.2.2.2]
    apply Finset.card_le_card
    intro v hv
    exact hR v (hs.1 v (List.mem_toFinset.1 hv))
  induction fuel generalizing st with
  | zero =>
    cases hs : st.open_stack with
    | nil => exact ⟨st, searchLoop_nil layer 0 hs⟩
    | cons c rest =>
      have := hcard st hinv
      rw [hs, List.length_cons] at hfuel
      omega
  | succ n ih =>
    cases hs : st.open_stack with
    | nil => exact ⟨st, searchLoop_nil layer (n + 1) hs⟩
    | cons c rest =>
      rw [searchLoop_succ layer n hs]
      apply ih _ (searchInv_step hinv hs)
      have hc := (visited_expand layer c { st with open_stack := rest }).count
      rw [hs, List.length_cons] at hfuel
      simp only at hc
      omega

/-- C9, amended: for a layer of positive voxel size the flood fill of
`computeFrontierCandidates` terminates iff only finitely many indices are reachable
from the seed by chains of 26-adjacent indices classified Free or Unknown. -/
theorem frontier_search_terminates_iff (layer : Layer) (initial_point : Point)
    (voxels obstacles : GlobalIndexVector) (hpos : 0 < layer.voxel_size) :
    (∃ fuel voxels' obstacles',
      computeFrontierCandidates layer initial_point voxels obstacles fuel =
        .finished voxels' obstacles') ↔
    Set.Finite {v | ChainReachable layer
      (indexFromPoint initial_point (1 / layer.voxel_size)) v} := by
  constructor
  · rintro ⟨fuel, voxels', obstacles', h⟩
    obtain ⟨_, st, hs, _, _⟩ := computeFrontierCandidates_finished h
    obtain ⟨hinv, hempty⟩ := searchLoop_inv fuel (searchInv_init layer _ obstacles) hs
    apply (List.finite_toSet st.closed_list).subset
    intro v hv
    exact (searchInv_final hinv hempty v).2 ((chainReachable_iff_path layer _ v).1 hv)
  · intro hfin
    have hR : ∀ v, Path layer (indexFromPoint initial_point (1 / layer.voxel_size)) v →
        v ∈ hfin.toFinset := by
      intro v hv
      exact (Set.Finite.mem_toFinset hfin).2 ((chainReachable_iff_path layer _ v).2 hv)
    obtain ⟨st, hs⟩ := searchLoop_terminates hfin.toFinset hR (hfin.toFinset.card + 1)
      ⟨[indexFromPoint initial_point (1 / layer.voxel_size)], [], obstacles⟩
      (searchInv_init layer _ obstacles) (by simp)
    exact ⟨hfin.toFinset.card + 1, voxels ++ st.closed_list, st.obstacles,
      computeFrontierCandidates_of_search hpos hs⟩

theorem frontier_search_terminates_iff_witness :
    0 < sealedLayer.voxel_size ∧
    ((∃ fuel voxels' obstacles',
      computeFrontierCandidates sealedLayer sealedStart [] [] fuel =
        .finished voxels' obstacles') ↔
    Set.Finite {v | ChainReachable sealedLayer
      (indexFromPoint sealedStart (1 / sealedLayer.voxel_size)) v}) :=
  ⟨by decide!, frontier_search_terminates_iff sealedLayer sealedStart [] [] (by decide!)⟩

/-! ## The obstacle output of the frontier search -/

theorem obstacles_single (layer : Layer) (current : GlobalIndex) (st : SearchState)
    (o : GlobalIndex) (hT : ∀ v ∈ st.closed_list, Traversable layer v) :
    (∀ g ∈ st.obstacles, g ∈ (visitNeighbor layer current st o).obstacles) ∧
    (∀ g ∈ (visitNeighbor layer current st o).obstacles,
      g ∈ st.obstacles ∨ (g = current + o ∧ voxelState g layer = 1)) ∧
    (voxelState (current + o) layer = 1 →
      current + o ∈ (visitNeighbor layer current st o).obstacles) := by
  unfold visitNeighbor
  by_cases hc : current + o ∈ st.closed_list
  · simp only [hc, if_true]
    refine ⟨fun _ h => h, fun _ h => Or.inl h, ?_⟩
    intro h1
    exact absurd h1 ((traversable_iff layer _).1 (hT _ hc))
  · simp only [hc, if_false]
    by_cases ht : voxelState (current + o) layer = 0 ∨ voxelState (current + o) layer = 2
    · simp only [ht, if_true]
      refine ⟨fun _ h => h, fun _ h => Or.inl h, ?_⟩
      intro h1
      exact absurd h1 ((traversable_iff layer _).1 ht)
    · simp only [ht, if_false]
      have h1 : voxelState (current + o) layer = 1 := by
        rcases voxelState_range (current + o) layer with h | h | h
        · exact absurd (Or.inl h) ht
        · exact h
        · exact absurd (Or.inr h) ht
      refine ⟨fun _ h => List.mem_append_left _ h, ?_, ?_⟩
      · intro g hg
        rcases List.mem_append.1 hg with h | h
        · exact Or.inl h
        · rw [List.mem_singleton.1 h]
          exact Or.inr ⟨rfl, h1⟩
      · intro _
        exact List.mem_append_right _ (List.mem_singleton_self _)

theorem obstacles_foldl (layer : Layer) (current : GlobalIndex) (os : List GlobalIndex)
    (st : SearchState) (hT : ∀ v ∈ st.closed_list, Traversable layer v) :
    (∀ g ∈ st.obstacles, g ∈ (os.foldl (visitNeighbor layer current) st).obstacles) ∧
    (∀ g ∈ (os.foldl (visitNeighbor layer current) st).obstacles,
      g ∈ st.obstacles ∨ ((∃ o ∈ os, g = current + o) ∧ voxelState g layer = 1)) ∧
    (∀ o ∈ os, voxelState (current + o) layer = 1 →
      current + o ∈ (os.foldl (visitNeighbor layer current) st).obstacles) := by
  induction os generalizing st with
  | nil =>
    refine ⟨fun _ h => h, fun _ h => Or.inl h, ?_⟩
    intro o ho
    exact absurd ho (List.not_mem_nil _)
  | cons o rest ih =>
    rw [List.foldl_cons]
    obtain ⟨s1, s2, s3⟩ := obstacles_single layer current st o hT
    have hT' : ∀ v ∈ (visitNeighbor layer current st o).closed_list, Traversable layer v := by
      intro v hv
      rcases (visited_single layer current st o).closed_new v hv with h | ⟨_, ht, _⟩
      · exact hT v h
      · exact ht
    obtain ⟨r1, r2, r3⟩ := ih (visitNeighbor layer current st o) hT'
    refine ⟨fun g h => r1 g (s1 g h), ?_, ?_⟩
    · intro g hg
      rcases r2 g hg with h | ⟨⟨o', ho', e⟩, h1⟩
      · rcases s2 g h with h' | ⟨e, h1⟩
        · exact Or.inl h'
        · exact Or.inr ⟨⟨o, List.mem_cons_self _ _, e⟩, h1⟩
      · exact Or.inr ⟨⟨o', List.mem_cons_of_mem _ ho', e⟩, h1⟩
    · intro o' ho' h1
      rcases List.mem_cons.1 ho' with e | e
      · rw [e]
        rw [e] at h1
        exact r1 _ (s3 h1)
      · exact r3 o' e h1

theorem obstacleInv_init (layer : Layer) (seed : GlobalIndex) (obstacles : GlobalIndexVector) :
    ObstacleInv layer seed obstacles ⟨[seed], [], obstacles⟩ := by
  refine ⟨fun g hg => Or.inl hg, ?_⟩
  intro u hu
  rcases hu with h | h
  · exact Or.inl (by rw [h]; exact List.mem_singleton_self _)
  · exact absurd h (List.not_mem_nil _)

theorem obstacleInv_step {layer : Layer} {seed : GlobalIndex} {obstacles0 : GlobalIndexVector}
    {st : SearchState} (hinv : SearchInv layer seed st)
    (hobs : ObstacleInv layer seed obstacles0 st) {current : GlobalIndex}
    {rest : List GlobalIndex} (hs : st.open_stack = current :: rest) :
    ObstacleInv layer seed obstacles0
      (expandCurrent layer current { st with open_stack := rest }) := by
  obtain ⟨i1, i2, _, _⟩ := hinv
  obtain ⟨o1, o2⟩ := hobs
  have V := visited_expand layer current { st with open_stack := rest }
  have hT : ∀ v ∈ st.closed_list, Traversable layer v := fun v hv => (i1 v hv).traversable
  obtain ⟨r1, r2, r3⟩ :=
    obstacles_foldl layer current kNeighborOffsets { st with open_stack := rest } hT
  have hcur : current = seed ∨ current ∈ st.closed_list :=
    i2 current (by rw [hs]; exact List.mem_cons_self _ _)
  have hcur' : current = seed ∨
      current ∈ (expandCurrent layer current { st with open_stack := rest }).closed_list := by
    rcases hcur with h | h
    · exact Or.inl h
    · exact Or.inr (V.closed_mono _ h)
  constructor
  · intro g hg
    rcases r2 g hg with h | ⟨⟨o, ho, e⟩, h1⟩
    · rcases o1 g h with h' | ⟨h1, u, hu, hadj⟩
      · exact Or.inl h'
      · refine Or.inr ⟨h1, u, ?_, hadj⟩
        rcases hu with e | e
        · exact Or.inl e
        · exact Or.inr (V.closed_mono _ e)
    · exact Or.inr ⟨h1, current, hcur', (adjacent_iff_offset current g).2 ⟨o, ho, e⟩⟩
  · intro u hu
    have hold : (u = seed ∨ u ∈ st.closed_list) →
        u ∈ (expandCurrent layer current { st with open_stack := rest }).open_stack ∨
        ∀ w, Adjacent26 u w → voxelState w layer = 1 →
          w ∈ (expandCurrent layer current { st with open_stack := rest }).obstacles := by
      intro h
      rcases o2 u h with hst | hex
      · rw [hs] at hst
        rcases List.mem_cons.1 hst with e | e
        · right
          intro w hadj h1
          obtain ⟨o, ho, ew⟩ := (adjacent_iff_offset u w).1 hadj
          rw [ew, e]
          rw [ew, e] at h1
          exact r3 o ho h1
        · exact Or.inl (V.stack_mono u e)
      · right
        intro w hadj h1
        exact r1 w (hex w hadj h1)
    rcases hu with h | h
    · exact hold (Or.inl h)
    · rcases V.closed_new u h with h' | ⟨_, _, hst⟩
      · exact hold (Or.inr h')
      · exact Or.inl hst

theorem searchLoop_obstacleInv {layer : Layer} {seed : GlobalIndex}
    {obstacles0 : GlobalIndexVector} (fuel : Nat) {st st' : SearchState}
    (hinv : SearchInv layer seed st) (hobs : ObstacleInv layer seed obstacles0 st)
    (h : searchLoop layer fuel st = some st') :
    ObstacleInv layer seed obstacles0 st' := by
  induction fuel generalizing st with
  | zero =>
    cases hs : st.open_stack with
    | nil =>
      rw [searchLoop_nil layer 0 hs] at h
      cases h
      exact hobs
    | cons c rest =>
      rw [searchLoop_zero layer hs] at h
      cases h
  | succ n ih =>
    cases hs : st.open_stack with
    | nil =>
      rw [searchLoop_nil layer (n + 1) hs] at h
      cases h
      exact hobs
    | cons c rest =>
      rw [searchLoop_succ layer n hs] at h
      exact ih (searchInv_step hinv hs) (obstacleInv_step hinv hobs hs) h

theorem solid_run :
    computeFrontierCandidates solidLayer sealedStart [] [] 1 =
      .finished [] (computeFrontierCandidates solidLayer sealedStart [] [] 1).obstaclesOf := by
  decide!

/-- C11, as stated, fails: in the layer whose voxels are all Occupied the search from
the voxel (1,1,1) returns no explored index, yet its obstacle output holds the neighbour
(2,1,1) of the seed, which is adjacent to no explored index. -/
theorem obstacles_beside_seed_counterexample :
    computeFrontierCandidates solidLayer sealedStart [] [] 1 =
      .finished [] (computeFrontierCandidates solidLayer sealedStart [] [] 1).obstaclesOf ∧
    (⟨2, 1, 1⟩ : GlobalIndex) ∈
      (computeFrontierCandidates solidLayer sealedStart [] [] 1).obstaclesOf ∧
    ¬ ∃ e ∈ ([] : GlobalIndexVector), Adjacent26 e ⟨2, 1, 1⟩ := by
  refine ⟨solid_run, by decide!, ?_⟩
  rintro ⟨e, he, _⟩
  exact absurd he (List.not_mem_nil _)

/-- C11, amended: whenever `computeFrontierCandidates`, called with empty output
vectors, returns, the indices of the obstacle output are exactly the voxels classified
Occupied that are 26-adjacent to the seed or to at least one index of the explored
output. -/
theorem computeFrontierCandidates_obstacle_set (layer : Layer) (initial_point : Point)
    (fuel : Nat) (voxels' obstacles' : GlobalIndexVector)
    (h : computeFrontierCandidates layer initial_point [] [] fuel =
      .finished voxels' obstacles') (g : GlobalIndex) :
    g ∈ obstacles' ↔
      voxelState g layer = 1 ∧
        (Adjacent26 (indexFromPoint initial_point (1 / layer.voxel_size)) g ∨
          ∃ e ∈ voxels', Adjacent26 e g) := by
  obtain ⟨_, st, hs, e1, e2⟩ := computeFrontierCandidates_finished h
  obtain ⟨_, hempty⟩ := searchLoop_inv fuel (searchInv_init layer _ []) hs
  obtain ⟨o1, o2⟩ :=
    searchLoop_obstacleInv fuel (searchInv_init layer _ []) (obstacleInv_init layer _ []) hs
  rw [e1, e2, List.nil_append]
  constructor
  · intro hg
    rcases o1 g hg with h0 | ⟨h1, u, hu, hadj⟩
    · exact absurd h0 (List.not_mem_nil _)
    · refine ⟨h1, ?_⟩
      rcases hu with e | e
      · left; rw [← e]; exact hadj
      · exact Or.inr ⟨u, e, hadj⟩
  · rintro ⟨h1, hadj⟩
    have key : ∀ u, (u = indexFromPoint initial_point (1 / layer.voxel_size) ∨
        u ∈ st.closed_list) → Adjacent26 u g → g ∈ st.obstacles := by
      intro u hu ha
      rcases o2 u hu with hst | hex
      · rw [hempty] at hst
        exact absurd hst (List.not_mem_nil _)
      · exact hex g ha h1
    rcases hadj with ha | ⟨e, he, ha⟩
    · exact key _ (Or.inl rfl) ha
    · exact key e (Or.inr he) ha

theorem computeFrontierCandidates_obstacle_set_witness :
    computeFrontierCandidates sealedLayer sealedStart [] [] 3 =
      .finished [⟨2, 1, 1⟩, ⟨1, 1, 1⟩]
        (computeFrontierCandidates sealedLayer sealedStart [] [] 3).obstaclesOf ∧
    ((⟨3, 1, 1⟩ : GlobalIndex) ∈
        (computeFrontierCandidates sealedLayer sealedStart [] [] 3).obstaclesOf ↔
      voxelState ⟨3, 1, 1⟩ sealedLayer = 1 ∧
        (Adjacent26 (indexFromPoint sealedStart (1 / sealedLayer.voxel_size)) ⟨3, 1, 1⟩ ∨
          ∃ e ∈ ([⟨2, 1, 1⟩, ⟨1, 1, 1⟩] : GlobalIndexVector), Adjacent26 e ⟨3, 1, 1⟩)) :=
  ⟨sealed_run,
    computeFrontierCandidates_obstacle_set sealedLayer sealedStart 3 _ _ sealed_run ⟨3, 1, 1⟩⟩

/-! ## Scanning the allocated blocks of a layer -/

theorem mem_scanVoxel {layer : Layer} {p : TsdfVoxel → Prop} [DecidablePred p]
    {index : BlockIndex} {block : Block} {linear_index : Nat} {g : GlobalIndex} :
    g ∈ scanVoxel layer p index block linear_index ↔
      p (block.voxels linear_index) ∧
      g = getGlobalVoxelIndexFromBlockAndVoxelIndex index
        (computeVoxelIndexFromLinearIndex layer.voxels_per_side linear_index)
        layer.voxels_per_side := by
  unfold scanVoxel Block.getVoxelByLinearIndex
  by_cases h : p (block.voxels linear_index)
  · simp [h]
  · simp [h]

theorem scanVoxel_decode {layer : Layer} {p : TsdfVoxel → Prop} [DecidablePred p]
    (hv : 0 < layer.voxels_per_side) {index : BlockIndex} {block : Block}
    {linear_index : Nat}
    (hl : linear_index < layer.voxels_per_side * layer.voxels_per_side * layer.voxels_per_side)
    {g : GlobalIndex} (hg : g ∈ scanVoxel layer p index block linear_index) :
    getBlockIndexFromGlobalVoxelIndex g layer.voxels_per_side = index ∧
    computeLinearIndexFromVoxelIndex layer.voxels_per_side
      (getLocalFromGlobalVoxelIndex g layer.voxels_per_side) = linear_index := by
  obtain ⟨_, rfl⟩ := mem_scanVoxel.1 hg
  obtain ⟨hx, hy, hz⟩ := voxelIndex_bounds hv hl
  obtain ⟨e1, e2⟩ := block_of_global hv index _ hx hy hz
  exact ⟨e1, by rw [e2, linear_of_voxelIndex]⟩

theorem mem_scanBlock {layer : Layer} {p : TsdfVoxel → Prop} [DecidablePred p]
    {index : BlockIndex} {g : GlobalIndex} :
    g ∈ scanBlock layer p index ↔
      ∃ block, layer.getBlockPtrByIndex index = some block ∧
        ∃ linear_index,
          linear_index < layer.voxels_per_side * layer.voxels_per_side * layer.voxels_per_side ∧
          g ∈ scanVoxel layer p index block linear_index := by
  unfold scanBlock
  cases h : layer.getBlockPtrByIndex index with
  | none => simp
  | some block => simp [List.mem_flatMap, List.mem_range]

theorem mem_scanLayer {layer : Layer} (hwf : layer.WF) (p : TsdfVoxel → Prop)
    [DecidablePred p] (g : GlobalIndex) :
    g ∈ scanLayer layer p ↔ ∃ v, layer.getVoxelPtrByGlobalIndex g = some v ∧ p v := by
  obtain ⟨hv, _⟩ := hwf
  unfold scanLayer
  rw [List.mem_flatMap]
  constructor
  · rintro ⟨index, _, hg⟩
    obtain ⟨block, hb, linear_index, hl, hm⟩ := mem_scanBlock.1 hg
    obtain ⟨ho, rfl⟩ := mem_scanVoxel.1 hm
    exact ⟨_, getVoxelPtr_of_block hv hb hl, ho⟩
  · rintro ⟨v, hp, hpv⟩
    unfold Layer.getVoxelPtrByGlobalIndex at hp
    cases hb : layer.getBlockPtrByIndex
        (getBlockIndexFromGlobalVoxelIndex g layer.voxels_per_side) with
    | none => rw [hb] at hp; exact absurd hp (by simp)
    | some block =>
      rw [hb] at hp
      simp only [Option.some.injEq, Block.getVoxelByVoxelIndex] at hp
      obtain ⟨hx, hy, hz⟩ := local_bounds hv g
      obtain ⟨hl, hc⟩ := voxelIndex_of_linear hv _ hx hy hz
      refine ⟨getBlockIndexFromGlobalVoxelIndex g layer.voxels_per_side, ?_, ?_⟩
      · exact List.mem_map_of_mem Prod.fst (lookupBlock_mem hb)
      · refine mem_scanBlock.2 ⟨block, hb, _, hl, mem_scanVoxel.2 ⟨?_, ?_⟩⟩
        · rw [hp]; exact hpv
        · rw [hc, global_of_block_local]

theorem nodup_scanBlock {layer : Layer} (p : TsdfVoxel → Prop) [DecidablePred p]
    (hv : 0 < layer.voxels_per_side) (index : BlockIndex) :
    (scanBlock layer p index).Nodup := by
  unfold scanBlock
  cases h : layer.getBlockPtrByIndex index with
  | none => simp
  | some block =>
    simp only
    rw [List.nodup_flatMap]
    constructor
    · intro l _
      unfold scanVoxel
      split <;> simp
    · refine (List.nodup_range _).pairwise_of_forall_ne ?_
      intro a ha b hb hab
      simp only [Function.onFun]
      rw [List.disjoint_left]
      intro g hga hgb
      have ea := (scanVoxel_decode hv (List.mem_range.1 ha) hga).2
      have eb := (scanVoxel_decode hv (List.mem_range.1 hb) hgb).2
      exact hab (ea.symm.trans eb)

theorem nodup_scanLayer {layer : Layer} (hwf : layer.WF) (p : TsdfVoxel → Prop)
    [DecidablePred p] : (scanLayer layer p).Nodup := by
  obtain ⟨hv, hk⟩ := hwf
  unfold scanLayer
  rw [List.nodup_flatMap]
  refine ⟨fun k _ => nodup_scanBlock p hv k, ?_⟩
  refine List.Nodup.pairwise_of_forall_ne hk ?_
  intro a _ b _ hab
  simp only [Function.onFun]
  rw [List.disjoint_left]
  intro g hga hgb
  obtain ⟨_, _, la, hla, hma⟩ := mem_scanBlock.1 hga
  obtain ⟨_, _, lb, hlb, hmb⟩ := mem_scanBlock.1 hgb
  exact hab ((scanVoxel_decode hv hla hma).1.symm.trans (scanVoxel_decode hv hlb hmb).1)

theorem foldl_scan_voxels {α : Type} (layer : Layer) (p : TsdfVoxel → Prop) [DecidablePred p]
    (step : α → GlobalIndex → α) (index : BlockIndex) (block : Block) (f : α → Nat → α)
    (hf : ∀ acc linear_index,
      f acc linear_index = (scanVoxel layer p index block linear_index).foldl step acc)
    (ls : List Nat) (acc : α) :
    ls.foldl f acc = (ls.flatMap (scanVoxel layer p index block)).foldl step acc := by
  induction ls generalizing acc with
  | nil => rfl
  | cons l rest ih =>
    rw [List.foldl_cons, ih, hf, List.flatMap_cons, List.foldl_append]

theorem foldl_scan_blocks {α : Type} (layer : Layer) (p : TsdfVoxel → Prop) [DecidablePred p]
    (step : α → GlobalIndex → α) (fb : α → BlockIndex → α)
    (hfb : ∀ acc index, fb acc index = (scanBlock layer p index).foldl step acc)
    (ks : List BlockIndex) (acc : α) :
    ks.foldl fb acc = (ks.flatMap (scanBlock layer p)).foldl step acc := by
  induction ks generalizing acc with
  | nil => rfl
  | cons k rest ih =>
    rw [List.foldl_cons, ih, hfb, List.flatMap_cons, List.foldl_append]

theorem foldl_push (l : List GlobalIndex) (acc : GlobalIndexVector) :
    l.foldl (fun a g => a ++ [g]) acc = acc ++ l := by
  induction l generalizing acc with
  | nil => simp
  | cons g rest ih => rw [List.foldl_cons, ih]; simp

theorem isObservedAt_iff (layer : Layer) (g : GlobalIndex) :
    layer.isObservedAt g = true ↔ layer.Observed g := by
  unfold Layer.isObservedAt Layer.Observed
  cases h : layer.getVoxelPtrByGlobalIndex g with
  | none => simp
  | some v => simp

/-! ## Claims on `pruneInsideVoxels` and `splitObservedAndUnObservedVoxels` -/

theorem inside_test_iff (layer : Layer) (hpos : 0 < layer.voxel_size) (g : GlobalIndex) :
    (match layer.getVoxelPtrByGlobalIndex g with
      | some voxel => decide (voxel.weight > 1 / 1000000) && decide (voxel.distance < 0)
      | none => false) = true ↔
    (layer.Occupied g ∧ ∃ v, layer.getVoxelPtrByGlobalIndex g = some v ∧ v.distance < 0) := by
  unfold Layer.Occupied
  generalize (1 / 1000000 : ℚ) = ε
  cases h : layer.getVoxelPtrByGlobalIndex g with
  | none => simp
  | some v =>
    simp only [Bool.and_eq_true, decide_eq_true_eq, Option.some.injEq, exists_eq_left']
    constructor
    · rintro ⟨hw, hd⟩
      exact ⟨⟨hw, le_of_lt (lt_trans hd hpos)⟩, hd⟩
    · rintro ⟨⟨hw, _⟩, hd⟩
      exact ⟨hw, hd⟩

/-- C12: for a layer of positive voxel size, `pruneInsideVoxels` returns a list no
longer than its input, obtained from it by deleting elements (survivors keep their
order); every occurrence of an index that is Occupied with negative signed distance is
deleted, and every occurrence of any other index is kept. -/
theorem pruneInsideVoxels_deletes (layer : Layer) (voxels : GlobalIndexVector)
    (hpos : 0 < layer.voxel_size) :
    (pruneInsideVoxels layer voxels).length ≤ voxels.length ∧
    List.Sublist (pruneInsideVoxels layer voxels) voxels ∧
    ∀ g,
      ((layer.Occupied g ∧ ∃ v, layer.getVoxelPtrByGlobalIndex g = some v ∧ v.distance < 0) →
        g ∉ pruneInsideVoxels layer voxels) ∧
      (¬ (layer.Occupied g ∧
          ∃ v, layer.getVoxelPtrByGlobalIndex g = some v ∧ v.distance < 0) →
        List.count g (pruneInsideVoxels layer voxels) = List.count g voxels) := by
  unfold pruneInsideVoxels
  refine ⟨List.length_filter_le _ _, List.filter_sublist _, ?_⟩
  intro g
  constructor
  · intro hbad hmem
    have h1 := (List.mem_filter.1 hmem).2
    have h2 := (inside_test_iff layer hpos g).2 hbad
    rw [h2] at h1
    simp at h1
  · intro hgood
    apply List.count_filter
    have h2 : ¬ ((match layer.getVoxelPtrByGlobalIndex g with
      | some voxel => decide (voxel.weight > 1 / 1000000) && decide (voxel.distance < 0)
      | none => false) = true) := fun h => hgood ((inside_test_iff layer hpos g).1 h)
    simpa using h2

theorem pruneInsideVoxels_deletes_witness :
    0 < negativeLayer.voxel_size ∧
    ((pruneInsideVoxels negativeLayer [⟨-1, 0, 0⟩, ⟨-2, 0, 0⟩]).length ≤
      ([⟨-1, 0, 0⟩, ⟨-2, 0, 0⟩] : GlobalIndexVector).length ∧
    List.Sublist (pruneInsideVoxels negativeLayer [⟨-1, 0, 0⟩, ⟨-2, 0, 0⟩])
      [⟨-1, 0, 0⟩, ⟨-2, 0, 0⟩] ∧
    ∀ g,
      ((negativeLayer.Occupied g ∧
          ∃ v, negativeLayer.getVoxelPtrByGlobalIndex g = some v ∧ v.distance < 0) →
        g ∉ pruneInsideVoxels negativeLayer [⟨-1, 0, 0⟩, ⟨-2, 0, 0⟩]) ∧
      (¬ (negativeLayer.Occupied g ∧
          ∃ v, negativeLayer.getVoxelPtrByGlobalIndex g = some v ∧ v.distance < 0) →
        List.count g (pruneInsideVoxels negativeLayer [⟨-1, 0, 0⟩, ⟨-2, 0, 0⟩]) =
          List.count g [⟨-1, 0, 0⟩, ⟨-2, 0, 0⟩])) :=
  ⟨by decide!, pruneInsideVoxels_deletes negativeLayer [⟨-1, 0, 0⟩, ⟨-2, 0, 0⟩] (by decide!)⟩

theorem splitVoxel_eq (layer : Layer) (acc : GlobalIndexVector × GlobalIndexVector)
    (g : GlobalIndex) :
    splitVoxel layer acc g =
      (acc.1 ++ [g].filter layer.isObservedAt,
       acc.2 ++ [g].filter (fun g => !layer.isObservedAt g)) := by
  unfold splitVoxel Layer.isObservedAt
  cases h : layer.getVoxelPtrByGlobalIndex g with
  | none => simp [List.filter, h]
  | some v =>
    by_cases hw : v.weight > 1 / 1000000
    · simp only [List.filter, h, hw, if_true, decide_True, Bool.not_true, List.append_nil]
    · simp only [List.filter, h, hw, if_false, decide_False, Bool.not_false, List.append_nil]

theorem split_foldl_eq (layer : Layer) (l : List GlobalIndex)
    (acc : GlobalIndexVector × GlobalIndexVector) :
    l.foldl (splitVoxel layer) acc =
      (acc.1 ++ l.filter layer.isObservedAt,
       acc.2 ++ l.filter (fun g => !layer.isObservedAt g)) := by
  induction l generalizing acc with
  | nil => simp
  | cons g rest ih =>
    rw [List.foldl_cons, ih, splitVoxel_eq]
    have e : g :: rest = [g] ++ rest := rfl
    rw [e, List.filter_append, List.filter_append]
    simp only [List.append_assoc]

/-- C16: called with empty outputs, `splitObservedAndUnObservedVoxels` sends every
occurrence of the input, in input order, to exactly one output: to the observed output
iff the layer holds a voxel at the index with weight above 1e-6, to the unobserved
output iff the voxel is absent or its weight is not above 1e-6. -/
theorem splitObservedAndUnObservedVoxels_partition (layer : Layer)
    (in_voxels : GlobalIndexVector) :
    (splitObservedAndUnObservedVoxels layer in_voxels [] []).1 =
      in_voxels.filter layer.isObservedAt ∧
    (splitObservedAndUnObservedVoxels layer in_voxels [] []).2 =
      in_voxels.filter (fun g => !layer.isObservedAt g) ∧
    ∀ g,
      (layer.isObservedAt g = true ↔
        ∃ v, layer.getVoxelPtrByGlobalIndex g = some v ∧ v.weight > 1 / 1000000) ∧
      ((!layer.isObservedAt g) = true ↔
        (layer.getVoxelPtrByGlobalIndex g = none ∨
          ∃ v, layer.getVoxelPtrByGlobalIndex g = some v ∧ ¬ v.weight > 1 / 1000000)) := by
  unfold splitObservedAndUnObservedVoxels
  rw [split_foldl_eq]
  refine ⟨by simp, by simp, ?_⟩
  intro g
  refine ⟨isObservedAt_iff layer g, ?_⟩
  unfold Layer.isObservedAt
  generalize (1 / 1000000 : ℚ) = ε
  cases h : layer.getVoxelPtrByGlobalIndex g with
  | none => simp
  | some v => simp

/-! ## Claims on `find_unobserved_free_voxels` and `calculateFreeObservedVoxels` -/

theorem foldl_unobserved (other : Layer) (l : List GlobalIndex) (acc : GlobalIndexVector) :
    l.foldl (fun a g =>
        match other.getVoxelPtrByGlobalIndex g with
        | none => a ++ [g]
        | some observed_voxel =>
          if observed_voxel.weight < 1 / 1000000 then a ++ [g] else a) acc =
      acc ++ l.filter other.isUnobservedAt := by
  induction l generalizing acc with
  | nil => simp
  | cons g rest ih =>
    rw [List.foldl_cons, ih]
    unfold Layer.isUnobservedAt
    cases h : other.getVoxelPtrByGlobalIndex g with
    | none => simp [List.filter, h]
    | some v =>
      by_cases hw : v.weight < 1 / 1000000
      · simp only [List.filter, h, hw, if_true, decide_True, List.append_assoc,
          List.singleton_append]
      · simp only [List.filter, h, hw, if_false, decide_False]

theorem find_unobserved_free_voxels_eq (layer otherLayer : Layer)
    (out_voxels : GlobalIndexVector) :
    find_unobserved_free_voxels layer otherLayer out_voxels =
      out_voxels ++
        (scanLayer layer (fun v => v.weight < 1 / 1000000)).filter
          otherLayer.isUnobservedAt := by
  unfold find_unobserved_free_voxels scanLayer
  rw [← foldl_unobserved]
  apply foldl_scan_blocks
  intro acc index
  unfold unobservedFreeBlock scanBlock
  cases h : layer.getBlockPtrByIndex index with
  | none => rfl
  | some block =>
    simp only
    apply foldl_scan_voxels
    intro acc linear_index
    unfold unobservedFreeVoxel scanVoxel
    by_cases hw : (block.getVoxelByLinearIndex linear_index).weight < 1 / 1000000
    · simp only [hw, if_true, List.foldl_cons, List.foldl_nil]
    · simp only [hw, if_false, List.foldl_nil]

/-- C17: called with an empty output on a well-formed `layer`,
`find_unobserved_free_voxels` emits `g` iff `g` lies in an allocated block of `layer`
with weight below 1e-6 there and the voxel at `g` in `otherLayer` is absent or has
weight below 1e-6; no index is emitted twice. -/
theorem find_unobserved_free_voxels_emits (layer otherLayer : Layer) (hwf : layer.WF) :
    (find_unobserved_free_voxels layer otherLayer []).Nodup ∧
    ∀ g, g ∈ find_unobserved_free_voxels layer otherLayer [] ↔
      (∃ v, layer.getVoxelPtrByGlobalIndex g = some v ∧ v.weight < 1 / 1000000) ∧
      (otherLayer.getVoxelPtrByGlobalIndex g = none ∨
        ∃ v, otherLayer.getVoxelPtrByGlobalIndex g = some v ∧ v.weight < 1 / 1000000) := by
  rw [find_unobserved_free_voxels_eq, List.nil_append]
  refine ⟨(nodup_scanLayer hwf _).filter _, ?_⟩
  intro g
  rw [List.mem_filter, mem_scanLayer hwf]
  have e : otherLayer.isUnobservedAt g = true ↔
      (otherLayer.getVoxelPtrByGlobalIndex g = none ∨
        ∃ v, otherLayer.getVoxelPtrByGlobalIndex g = some v ∧ v.weight < 1 / 1000000) := by
    unfold Layer.isUnobservedAt
    generalize (1 / 1000000 : ℚ) = ε
    cases h : otherLayer.getVoxelPtrByGlobalIndex g with
    | none => simp
    | some v => simp
  rw [e]

theorem find_unobserved_free_voxels_emits_witness :
    negativeLayer.WF ∧
    ((find_unobserved_free_voxels negativeLayer sealedLayer []).Nodup ∧
    ∀ g, g ∈ find_unobserved_free_voxels negativeLayer sealedLayer [] ↔
      (∃ v, negativeLayer.getVoxelPtrByGlobalIndex g = some v ∧ v.weight < 1 / 1000000) ∧
      (sealedLayer.getVoxelPtrByGlobalIndex g = none ∨
        ∃ v, sealedLayer.getVoxelPtrByGlobalIndex g = some v ∧ v.weight < 1 / 1000000)) :=
  ⟨by unfold Layer.WF; decide!,
    find_unobserved_free_voxels_emits negativeLayer sealedLayer (by unfold Layer.WF; decide!)⟩

theorem calculateFreeObservedVoxels_eq (layer : Layer) (voxels : GlobalIndexVector) :
    calculateFreeObservedVoxels layer voxels =
      voxels ++ scanLayer layer (fun v => v.weight > 1 / 1000000) := by
  unfold calculateFreeObservedVoxels scanLayer
  rw [← foldl_push]
  apply foldl_scan_blocks
  intro acc index
  unfold freeObservedBlock scanBlock
  cases h : layer.getBlockPtrByIndex index with
  | none => rfl
  | some block =>
    simp only
    apply foldl_scan_voxels
    intro acc linear_index
    unfold freeObservedVoxel scanVoxel
    by_cases hw : (block.getVoxelByLinearIndex linear_index).weight > 1 / 1000000
    · simp only [hw, if_true, List.foldl_cons, List.foldl_nil]
    · simp only [hw, if_false, List.foldl_nil]

/-- C18: called with an empty output on a well-formed layer,
`calculateFreeObservedVoxels` returns exactly the global indices of the voxels in
allocated blocks whose weight exceeds 1e-6, each once, whatever their distance. -/
theorem calculateFreeObservedVoxels_collects (layer : Layer) (hwf : layer.WF) :
    (calculateFreeObservedVoxels layer []).Nodup ∧
    ∀ g, g ∈ calculateFreeObservedVoxels layer [] ↔
      ∃ v, layer.getVoxelPtrByGlobalIndex g = some v ∧ v.weight > 1 / 1000000 := by
  rw [calculateFreeObservedVoxels_eq, List.nil_append]
  exact ⟨nodup_scanLayer hwf _, fun g => mem_scanLayer hwf _ g⟩

theorem calculateFreeObservedVoxels_collects_witness :
    sealedLayer.WF ∧
    ((calculateFreeObservedVoxels sealedLayer []).Nodup ∧
    ∀ g, g ∈ calculateFreeObservedVoxels sealedLayer [] ↔
      ∃ v, sealedLayer.getVoxelPtrByGlobalIndex g = some v ∧ v.weight > 1 / 1000000) :=
  ⟨by unfold Layer.WF; decide!,
    calculateFreeObservedVoxels_collects sealedLayer (by unfold Layer.WF; decide!)⟩

/-! ## Symmetry of the intersection and block/voxel addressing -/

/-- C19: for well-formed grids `A` and `B` the intersection outputs of the calls
`(A, B)` and `(B, A)` hold the same indices and have the same length; the two
difference outputs differ in membership exactly at the indices on which `A` and `B`
disagree about being Occupied. -/
theorem intersection_symmetric (A B : Layer) (hA : A.WF) (hB : B.WF) :
    (∀ g, g ∈ (calculate_Intersection_difference A B [] []).1 ↔
      g ∈ (calculate_Intersection_difference B A [] []).1) ∧
    (calculate_Intersection_difference A B [] []).1.length =
      (calculate_Intersection_difference B A [] []).1.length ∧
    (∀ g, ¬ (g ∈ (calculate_Intersection_difference A B [] []).2 ↔
        g ∈ (calculate_Intersection_difference B A [] []).2) ↔
      ¬ (A.Occupied g ↔ B.Occupied g)) := by
  simp only [calculate_eq, List.nil_append]
  refine ⟨?_, ?_, ?_⟩
  · intro g
    rw [mem_intersection_iff hA, mem_intersection_iff hB, and_comm]
  · have e1 := ncard_of_list _ ((nodup_emitLayer hA).filter B.isOccupied) _
      (mem_intersection_iff (B := B) hA)
    have e2 := ncard_of_list _ ((nodup_emitLayer hB).filter A.isOccupied) _
      (mem_intersection_iff (B := A) hB)
    have e : {g | A.Occupied g ∧ B.Occupied g} = {g | B.Occupied g ∧ A.Occupied g} := by
      ext g
      exact and_comm
    rw [← e1, ← e2, e]
  · intro g
    rw [mem_difference_iff hA, mem_difference_iff hB]
    by_cases a : A.Occupied g <;> by_cases b : B.Occupied g <;> simp [a, b]

theorem intersection_symmetric_witness :
    ground_truth_map.WF ∧ observed_map.WF ∧
    ((∀ g, g ∈ (calculate_Intersection_difference ground_truth_map observed_map [] []).1 ↔
      g ∈ (calculate_Intersection_difference observed_map ground_truth_map [] []).1) ∧
    (calculate_Intersection_difference ground_truth_map observed_map [] []).1.length =
      (calculate_Intersection_difference observed_map ground_truth_map [] []).1.length ∧
    (∀ g, ¬ (g ∈ (calculate_Intersection_difference ground_truth_map observed_map [] []).2 ↔
        g ∈ (calculate_Intersection_difference observed_map ground_truth_map [] []).2) ↔
      ¬ (ground_truth_map.Occupied g ↔ observed_map.Occupied g))) :=
  ⟨ground_truth_map_wf, observed_map_wf,
    intersection_symmetric ground_truth_map observed_map ground_truth_map_wf observed_map_wf⟩

/-- C20: for every number `s > 0` of voxels per side, a global index splits into the
block index `floor(g / s)` and a local index with components in `[0, s)` and is
recovered from them; every block index and local index in range are recovered from
their global index; linear indices below `s^3` and local indices in range are
converted into each other without loss; distinct (block, linear index) pairs give
distinct global indices. -/
theorem addressing_roundtrip (s : Nat) (hs : 0 < s) :
    (∀ g : GlobalIndex,
      (getBlockIndexFromGlobalVoxelIndex g s).x = ⌊(g.x : ℚ) / (s : ℚ)⌋ ∧
      (getBlockIndexFromGlobalVoxelIndex g s).y = ⌊(g.y : ℚ) / (s : ℚ)⌋ ∧
      (getBlockIndexFromGlobalVoxelIndex g s).z = ⌊(g.z : ℚ) / (s : ℚ)⌋ ∧
      ((0 ≤ (getLocalFromGlobalVoxelIndex g s).x ∧ (getLocalFromGlobalVoxelIndex g s).x < s) ∧
       (0 ≤ (getLocalFromGlobalVoxelIndex g s).y ∧ (getLocalFromGlobalVoxelIndex g s).y < s) ∧
       (0 ≤ (getLocalFromGlobalVoxelIndex g s).z ∧ (getLocalFromGlobalVoxelIndex g s).z < s)) ∧
      getGlobalVoxelIndexFromBlockAndVoxelIndex (getBlockIndexFromGlobalVoxelIndex g s)
        (getLocalFromGlobalVoxelIndex g s) s = g) ∧
    (∀ b v : Index3, (0 ≤ v.x ∧ v.x < s) → (0 ≤ v.y ∧ v.y < s) → (0 ≤ v.z ∧ v.z < s) →
      getBlockIndexFromGlobalVoxelIndex (getGlobalVoxelIndexFromBlockAndVoxelIndex b v s) s = b ∧
      getLocalFromGlobalVoxelIndex (getGlobalVoxelIndexFromBlockAndVoxelIndex b v s) s = v ∧
      computeLinearIndexFromVoxelIndex s v < s * s * s ∧
      computeVoxelIndexFromLinearIndex s (computeLinearIndexFromVoxelIndex s v) = v) ∧
    (∀ linear_index, linear_index < s * s * s →
      ((0 ≤ (computeVoxelIndexFromLinearIndex s linear_index).x ∧
          (computeVoxelIndexFromLinearIndex s linear_index).x < s) ∧
       (0 ≤ (computeVoxelIndexFromLinearIndex s linear_index).y ∧
          (computeVoxelIndexFromLinearIndex s linear_index).y < s) ∧
       (0 ≤ (computeVoxelIndexFromLinearIndex s linear_index).z ∧
          (computeVoxelIndexFromLinearIndex s linear_index).z < s)) ∧
      computeLinearIndexFromVoxelIndex s
        (computeVoxelIndexFromLinearIndex s linear_index) = linear_index) ∧
    (∀ (b₁ b₂ : BlockIndex) (l₁ l₂ : Nat), l₁ < s * s * s → l₂ < s * s * s →
      getGlobalVoxelIndexFromBlockAndVoxelIndex b₁ (computeVoxelIndexFromLinearIndex s l₁) s =
        getGlobalVoxelIndexFromBlockAndVoxelIndex b₂ (computeVoxelIndexFromLinearIndex s l₂) s →
      b₁ = b₂ ∧ l₁ = l₂) := by
  refine ⟨?_, ?_, ?_, ?_⟩
  · intro g
    refine ⟨?_, ?_, ?_, local_bounds hs g, global_of_block_local g s⟩
    · exact (Rat.floor_intCast_div_natCast g.x s).symm
    · exact (Rat.floor_intCast_div_natCast g.y s).symm
    · exact (Rat.floor_intCast_div_natCast g.z s).symm
  · intro b v hx hy hz
    obtain ⟨e1, e2⟩ := block_of_global hs b v hx hy hz
    obtain ⟨e3, e4⟩ := voxelIndex_of_linear hs v hx hy hz
    exact ⟨e1, e2, e3, e4⟩
  · intro linear_index hl
    exact ⟨voxelIndex_bounds hs hl, linear_of_voxelIndex s linear_index⟩
  · intro b₁ b₂ l₁ l₂ h₁ h₂ e
    obtain ⟨x₁, y₁, z₁⟩ := voxelIndex_bounds hs h₁
    obtain ⟨x₂, y₂, z₂⟩ := voxelIndex_bounds hs h₂
    obtain ⟨p₁, q₁⟩ := block_of_global hs b₁ _ x₁ y₁ z₁
    obtain ⟨p₂, q₂⟩ := block_of_global hs b₂ _ x₂ y₂ z₂
    rw [e] at p₁ q₁
    refine ⟨p₁.symm.trans p₂, ?_⟩
    have := q₁.symm.trans q₂
    have c := congrArg (computeLinearIndexFromVoxelIndex s) this
    rwa [linear_of_voxelIndex, linear_of_voxelIndex] at c

theorem addressing_roundtrip_witness :
    0 < 8 ∧
    getGlobalVoxelIndexFromBlockAndVoxelIndex (getBlockIndexFromGlobalVoxelIndex ⟨-3, 9, 0⟩ 8)
      (getLocalFromGlobalVoxelIndex ⟨-3, 9, 0⟩ 8) 8 = ⟨-3, 9, 0⟩ ∧
    getBlockIndexFromGlobalVoxelIndex ⟨-3, 9, 0⟩ 8 = ⟨-1, 1, 0⟩ ∧
    getLocalFromGlobalVoxelIndex ⟨-3, 9, 0⟩ 8 = ⟨5, 1, 0⟩ :=
  ⟨by decide, ((addressing_roundtrip 8 (by decide)).1 ⟨-3, 9, 0⟩).2.2.2.2, by decide,
    by decide⟩

/-! ## The bounding box of `pruneOutlierVoxels` -/

theorem outlierBounds_eq (layer : Layer) :
    outlierBounds layer =
      (scanLayer layer (fun v => v.weight > 1 / 1000000)).foldl
        (boundsStep layer.voxel_size) (⟨0, 0, 0⟩, ⟨0, 0, 0⟩) := by
  unfold outlierBounds scanLayer
  apply foldl_scan_blocks
  intro acc index
  unfold outlierBoundsBlock scanBlock
  cases h : layer.getBlockPtrByIndex index with
  | none => rfl
  | some block =>
    simp only
    apply foldl_scan_voxels
    intro acc linear_index
    unfold outlierBoundsVoxel scanVoxel
    by_cases hw : (block.getVoxelByLinearIndex linear_index).weight > 1 / 1000000
    · simp only [hw, if_true, List.foldl_cons, List.foldl_nil, boundsStep]
    · simp only [hw, if_false, List.foldl_nil]

theorem bounds_components (vs : ℚ) (l : List GlobalIndex) (acc : Point × Point) :
    (l.foldl (boundsStep vs) acc).1.x =
      l.foldl (fun m g => min m (g.x * vs + vs / 2)) acc.1.x ∧
    (l.foldl (boundsStep vs) acc).1.y =
      l.foldl (fun m g => min m (g.y * vs + vs / 2)) acc.1.y ∧
    (l.foldl (boundsStep vs) acc).1.z =
      l.foldl (fun m g => min m (g.z * vs + vs / 2)) acc.1.z ∧
    (l.foldl (boundsStep vs) acc).2.x =
      l.foldl (fun m g => max m (g.x * vs + vs / 2)) acc.2.x ∧
    (l.foldl (boundsStep vs) acc).2.y =
      l.foldl (fun m g => max m (g.y * vs + vs / 2)) acc.2.y ∧
    (l.foldl (boundsStep vs) acc).2.z =
      l.foldl (fun m g => max m (g.z * vs + vs / 2)) acc.2.z := by
  induction l generalizing acc with
  | nil => exact ⟨rfl, rfl, rfl, rfl, rfl, rfl⟩
  | cons g rest ih =>
    simp only [List.foldl_cons]
    exact ih (boundsStep vs acc g)

theorem foldl_min_spec (f : GlobalIndex → ℚ) (l : List GlobalIndex) (a : ℚ) :
    l.foldl (fun m g => min m (f g)) a ≤ a ∧
    (∀ g ∈ l, l.foldl (fun m g => min m (f g)) a ≤ f g) ∧
    (l.foldl (fun m g => min m (f g)) a = a ∨
      ∃ g ∈ l, l.foldl (fun m g => min m (f g)) a = f g) := by
  induction l generalizing a with
  | nil => exact ⟨le_refl _, fun g hg => absurd hg (List.not_mem_nil _), Or.inl rfl⟩
  | cons g rest ih =>
    simp only [List.foldl_cons]
    obtain ⟨h1, h2, h3⟩ := ih (min a (f g))
    refine ⟨le_trans h1 (min_le_left _ _), ?_, ?_⟩
    · intro g' hg'
      rcases List.mem_cons.1 hg' with e | e
      · rw [e]; exact le_trans h1 (min_le_right _ _)
      · exact h2 g' e
    · rcases h3 with e | ⟨g', hg', e⟩
      · rcases min_choice a (f g) with c | c
        · left; rw [e, c]
        · right; exact ⟨g, List.mem_cons_self _ _, by rw [e, c]⟩
      · right; exact ⟨g', List.mem_cons_of_mem _ hg', e⟩

theorem foldl_max_spec (f : GlobalIndex → ℚ) (l : List GlobalIndex) (a : ℚ) :
    a ≤ l.foldl (fun m g => max m (f g)) a ∧
    (∀ g ∈ l, f g ≤ l.foldl (fun m g => max m (f g)) a) ∧
    (l.foldl (fun m g => max m (f g)) a = a ∨
      ∃ g ∈ l, l.foldl (fun m g => max m (f g)) a = f g) := by
  induction l generalizing a with
  | nil => exact ⟨le_refl _, fun g hg => absurd hg (List.not_mem_nil _), Or.inl rfl⟩
  | cons g rest ih =>
    simp only [List.foldl_cons]
    obtain ⟨h1, h2, h3⟩ := ih (max a (f g))
    refine ⟨le_trans (le_max_left _ _) h1, ?_, ?_⟩
    · intro g' hg'
      rcases List.mem_cons.1 hg' with e | e
      · rw [e]; exact le_trans (le_max_right _ _) h1
      · exact h2 g' e
    · rcases h3 with e | ⟨g', hg', e⟩
      · rcases max_choice a (f g) with c | c
        · left; rw [e, c]
        · right; exact ⟨g, List.mem_cons_self _ _, by rw [e, c]⟩
      · right; exact ⟨g', List.mem_cons_of_mem _ hg', e⟩

theorem isLeast_foldl_min (f : GlobalIndex → ℚ) (l : List GlobalIndex)
    (P : GlobalIndex → Prop) (h : ∀ g, g ∈ l ↔ P g) :
    IsLeast (insert 0 {c | ∃ g, P g ∧ c = f g}) (l.foldl (fun m g => min m (f g)) 0) := by
  obtain ⟨h1, h2, h3⟩ := foldl_min_spec f l 0
  constructor
  · rcases h3 with e | ⟨g, hg, e⟩
    · rw [e]; exact Set.mem_insert _ _
    · exact Set.mem_insert_of_mem _ ⟨g, (h g).1 hg, e⟩
  · intro c hc
    rcases hc with e | ⟨g, hg, e⟩
    · rw [e]; exact h1
    · rw [e]; exact h2 g ((h g).2 hg)

theorem isGreatest_foldl_max (f : GlobalIndex → ℚ) (l : List GlobalIndex)
    (P : GlobalIndex → Prop) (h : ∀ g, g ∈ l ↔ P g) :
    IsGreatest (insert 0 {c | ∃ g, P g ∧ c = f g}) (l.foldl (fun m g => max m (f g)) 0) := by
  obtain ⟨h1, h2, h3⟩ := foldl_max_spec f l 0
  constructor
  · rcases h3 with e | ⟨g, hg, e⟩
    · rw [e]; exact Set.mem_insert _ _
    · exact Set.mem_insert_of_mem _ ⟨g, (h g).1 hg, e⟩
  · intro c hc
    rcases hc with e | ⟨g, hg, e⟩
    · rw [e]; exact h1
    · rw [e]; exact h2 g ((h g).2 hg)

/-- C13, amended: for a well-formed layer, each bound of the box of
`pruneOutlierVoxels` is the least, respectively greatest, of the voxel-center
coordinates of the voxels with weight above 1e-6 (Occupied or Free alike), taken
together with the origin coordinate 0. -/
theorem pruneOutlierVoxels_bounding_box (layer : Layer) (hwf : layer.WF) :
    IsLeast (insert 0 {c | ∃ g, layer.Observed g ∧
        c = g.x * layer.voxel_size + layer.voxel_size / 2}) (outlierBounds layer).1.x ∧
    IsLeast (insert 0 {c | ∃ g, layer.Observed g ∧
        c = g.y * layer.voxel_size + layer.voxel_size / 2}) (outlierBounds layer).1.y ∧
    IsLeast (insert 0 {c | ∃ g, layer.Observed g ∧
        c = g.z * layer.voxel_size + layer.voxel_size / 2}) (outlierBounds layer).1.z ∧
    IsGreatest (insert 0 {c | ∃ g, layer.Observed g ∧
        c = g.x * layer.voxel_size + layer.voxel_size / 2}) (outlierBounds layer).2.x ∧
    IsGreatest (insert 0 {c | ∃ g, layer.Observed g ∧
        c = g.y * layer.voxel_size + layer.voxel_size / 2}) (outlierBounds layer).2.y ∧
    IsGreatest (insert 0 {c | ∃ g, layer.Observed g ∧
        c = g.z * layer.voxel_size + layer.voxel_size / 2}) (outlierBounds layer).2.z := by
  have hm : ∀ g, g ∈ scanLayer layer (fun v => v.weight > 1 / 1000000) ↔ layer.Observed g :=
    fun g => mem_scanLayer hwf _ g
  obtain ⟨c1, c2, c3, c4, c5, c6⟩ := bounds_components layer.voxel_size
    (scanLayer layer (fun v => v.weight > 1 / 1000000)) (⟨0, 0, 0⟩, ⟨0, 0, 0⟩)
  rw [outlierBounds_eq, c1, c2, c3, c4, c5, c6]
  exact ⟨isLeast_foldl_min _ _ _ hm, isLeast_foldl_min _ _ _ hm, isLeast_foldl_min _ _ _ hm,
    isGreatest_foldl_max _ _ _ hm, isGreatest_foldl_max _ _ _ hm,
    isGreatest_foldl_max _ _ _ hm⟩

theorem freeLayer_wf : freeLayer.WF := by
  unfold Layer.WF
  decide!

theorem negativeLayer_wf : negativeLayer.WF := by
  unfold Layer.WF
  decide!

theorem freeLayer_not_occupied (g : GlobalIndex) : ¬ freeLayer.Occupied g := by
  intro h
  have hm := (mem_emitLayer freeLayer_wf g).2 h
  have he : emitLayer freeLayer = [] := by decide!
  rw [he] at hm
  exact absurd hm (List.not_mem_nil _)

/-- C13, as stated, fails: in the layer whose only written voxel is the Free voxel
(3,0,0) no voxel is Occupied, yet the box of `pruneOutlierVoxels` reaches the center
coordinate 7/2 of that voxel on the x axis, which is not the greatest coordinate of the
Occupied voxels together with the origin. -/
theorem free_voxel_enlarges_box_counterexample :
    (∀ g, ¬ freeLayer.Occupied g) ∧ voxelState ⟨3, 0, 0⟩ freeLayer = 0 ∧
    (outlierBounds freeLayer).2.x = 7 / 2 ∧
    ¬ IsGreatest (insert 0 {c | ∃ g, freeLayer.Occupied g ∧
        c = g.x * freeLayer.voxel_size + freeLayer.voxel_size / 2})
      (outlierBounds freeLayer).2.x := by
  have hx : (outlierBounds freeLayer).2.x = 7 / 2 := by decide!
  refine ⟨freeLayer_not_occupied, by decide!, hx, ?_⟩
  rintro ⟨hmem, _⟩
  rw [hx] at hmem
  rcases hmem with e | ⟨g, hg, _⟩
  · norm_num at e
  · exact freeLayer_not_occupied g hg

theorem pruneOutlierVoxels_bounding_box_witness :
    freeLayer.WF ∧
    (IsLeast (insert 0 {c | ∃ g, freeLayer.Observed g ∧
        c = g.x * freeLayer.voxel_size + freeLayer.voxel_size / 2})
      (outlierBounds freeLayer).1.x ∧
    IsLeast (insert 0 {c | ∃ g, freeLayer.Observed g ∧
        c = g.y * freeLayer.voxel_size + freeLayer.voxel_size / 2})
      (outlierBounds freeLayer).1.y ∧
    IsLeast (insert 0 {c | ∃ g, freeLayer.Observed g ∧
        c = g.z * freeLayer.voxel_size + freeLayer.voxel_size / 2})
      (outlierBounds freeLayer).1.z ∧
    IsGreatest (insert 0 {c | ∃ g, freeLayer.Observed g ∧
        c = g.x * freeLayer.voxel_size + freeLayer.voxel_size / 2})
      (outlierBounds freeLayer).2.x ∧
    IsGreatest (insert 0 {c | ∃ g, freeLayer.Observed g ∧
        c = g.y * freeLayer.voxel_size + freeLayer.voxel_size / 2})
      (outlierBounds freeLayer).2.y ∧
    IsGreatest (insert 0 {c | ∃ g, freeLayer.Observed g ∧
        c = g.z * freeLayer.voxel_size + freeLayer.voxel_size / 2})
      (outlierBounds freeLayer).2.z) :=
  ⟨freeLayer_wf, pruneOutlierVoxels_bounding_box freeLayer freeLayer_wf⟩

/-- C14, the code at the failing input: in the layer whose only written voxel is
(-1,0,0) the box is [-1/2, 0] x [0, 1/2] x [0, 1/2]; the center (-1/2, 1/2, 1/2) of
the index (-1,0,0) lies inside it, yet `pruneOutlierVoxels` removes the index, because
it tests the origin point (-1, 0, 0) of the index. -/
theorem pruneOutlierVoxels_tests_origin_point :
    outlierBounds negativeLayer = (⟨-1 / 2, 0, 0⟩, ⟨0, 1 / 2, 1 / 2⟩) ∧
    getCenterPointFromGridIndex ⟨-1, 0, 0⟩ negativeLayer.voxel_size =
      ⟨-1 / 2, 1 / 2, 1 / 2⟩ ∧
    getOriginPointFromGridIndex ⟨-1, 0, 0⟩ negativeLayer.voxel_size = ⟨-1, 0, 0⟩ ∧
    pruneOutlierVoxels negativeLayer [⟨-1, 0, 0⟩] = [] := by
  decide!

/-- C15, as stated, fails: the layer whose only written voxel is the Free voxel
(3,0,0) has no Occupied voxel, yet `pruneOutlierVoxels` keeps the index (1,0,0), whose
voxel center (3/2, 1/2, 1/2) is not the origin. -/
theorem pruneOutlierVoxels_not_empty_counterexample :
    (∀ g, ¬ freeLayer.Occupied g) ∧
    getCenterPointFromGridIndex ⟨1, 0, 0⟩ freeLayer.voxel_size = ⟨3 / 2, 1 / 2, 1 / 2⟩ ∧
    pruneOutlierVoxels freeLayer [⟨1, 0, 0⟩] = [⟨1, 0, 0⟩] :=
  ⟨freeLayer_not_occupied, by decide!, by decide!⟩

theorem fixtureConfig_not_observed (g : GlobalIndex) : ¬ fixtureConfig.Observed g := by
  rintro ⟨v, hv, _⟩
  simp [Layer.getVoxelPtrByGlobalIndex, Layer.getBlockPtrByIndex, fixtureConfig,
    lookupBlock] at hv

/-- C15, amended: for a well-formed layer of positive voxel size in which no voxel has
weight above 1e-6 (in particular a layer without allocated block), and for every index
list, `pruneOutlierVoxels` returns a result: the box collapses to the origin point and
every index other than (0,0,0) is removed. -/
theorem pruneOutlierVoxels_unobserved_layer (layer : Layer) (voxels : GlobalIndexVector)
    (hwf : layer.WF) (hpos : 0 < layer.voxel_size) (h : ∀ g, ¬ layer.Observed g) :
    outlierBounds layer = (⟨0, 0, 0⟩, ⟨0, 0, 0⟩) ∧
    List.Sublist (pruneOutlierVoxels layer voxels) voxels ∧
    ∀ g ∈ pruneOutlierVoxels layer voxels, g = ⟨0, 0, 0⟩ := by
  have hscan : scanLayer layer (fun v => v.weight > 1 / 1000000) = [] := by
    apply List.eq_nil_iff_forall_not_mem.2
    intro g hg
    exact h g ((mem_scanLayer hwf _ g).1 hg)
  have hb : outlierBounds layer = (⟨0, 0, 0⟩, ⟨0, 0, 0⟩) := by
    rw [outlierBounds_eq, hscan]
    rfl
  refine ⟨hb, ?_, ?_⟩
  · unfold pruneOutlierVoxels
    exact List.filter_sublist _
  · intro g hg
    unfold pruneOutlierVoxels at hg
    rw [hb] at hg
    have hk := (List.mem_filter.1 hg).2
    simp only [Bool.not_eq_true', decide_eq_false_iff_not, not_or, not_not,
      Point.cwiseMin, Point.cwiseMax, getOriginPointFromGridIndex, Point.mk.injEq] at hk
    obtain ⟨⟨a1, a2, a3⟩, ⟨b1, b2, b3⟩⟩ := hk
    have ex : g.x * layer.voxel_size = 0 :=
      le_antisymm (max_eq_left_iff.1 b1) (min_eq_left_iff.1 a1)
    have ey : g.y * layer.voxel_size = 0 :=
      le_antisymm (max_eq_left_iff.1 b2) (min_eq_left_iff.1 a2)
    have ez : g.z * layer.voxel_size = 0 :=
      le_antisymm (max_eq_left_iff.1 b3) (min_eq_left_iff.1 a3)
    have hne : layer.voxel_size ≠ 0 := ne_of_gt hpos
    obtain ⟨gx, gy, gz⟩ := g
    simp only [mul_eq_zero, hne, or_false, Int.cast_eq_zero] at ex ey ez
    simp only [Index3.mk.injEq]
    exact ⟨ex, ey, ez⟩

theorem pruneOutlierVoxels_unobserved_layer_witness :
    fixtureConfig.WF ∧ 0 < fixtureConfig.voxel_size ∧ (∀ g, ¬ fixtureConfig.Observed g) ∧
    (outlierBounds fixtureConfig = (⟨0, 0, 0⟩, ⟨0, 0, 0⟩) ∧
    List.Sublist (pruneOutlierVoxels fixtureConfig [⟨1, 0, 0⟩, ⟨0, 0, 0⟩])
      [⟨1, 0, 0⟩, ⟨0, 0, 0⟩] ∧
    ∀ g ∈ pruneOutlierVoxels fixtureConfig [⟨1, 0, 0⟩, ⟨0, 0, 0⟩], g = ⟨0, 0, 0⟩) :=
  ⟨fixtureConfig_wf, by decide!, fixtureConfig_not_observed,
    pruneOutlierVoxels_unobserved_layer fixtureConfig [⟨1, 0, 0⟩, ⟨0, 0, 0⟩]
      fixtureConfig_wf (by decide!) fixtureConfig_not_observed⟩

/-! ## Claim on `createPointCloudFromVoxelIndices` -/

theorem popBudget_single (layer : Layer) (current : GlobalIndex) (st : SearchState)
    (o g : GlobalIndex) :
    popBudget g (visitNeighbor layer current st o) = popBudget g st := by
  unfold visitNeighbor
  by_cases hc : current + o ∈ st.closed_list
  · simp only [hc, if_true]
  · simp only [hc, if_false]
    by_cases ht : voxelState (current + o) layer = 0 ∨ voxelState (current + o) layer = 2
    · simp only [ht, if_true]
      unfold popBudget
      simp only [List.count_cons, List.mem_append, List.mem_singleton]
      by_cases e : current + o = g
      · subst e
        simp [hc]
      · have e' : ¬ g = current + o := fun h => e h.symm
        simp [e, e']
    · simp only [ht, if_false]
      rfl

theorem popBudget_foldl (layer : Layer) (current : GlobalIndex) (os : List GlobalIndex)
    (st : SearchState) (g : GlobalIndex) :
    popBudget g (os.foldl (visitNeighbor layer current) st) = popBudget g st := by
  induction os generalizing st with
  | nil => rfl
  | cons o rest ih => rw [List.foldl_cons, ih, popBudget_single]

theorem searchPops_nil (layer : Layer) (fuel : Nat) {st : SearchState}
    (h : st.open_stack = []) : searchPops layer fuel st = [] := by
  unfold searchPops
  simp only [h]

theorem searchPops_zero (layer : Layer) (st : SearchState) : searchPops layer 0 st = [] := by
  unfold searchPops
  cases st.open_stack <;> rfl

theorem searchPops_succ (layer : Layer) (fuel : Nat) {st : SearchState}
    {current : GlobalIndex} {rest : List GlobalIndex} (h : st.open_stack = current :: rest) :
    searchPops layer (fuel + 1) st =
      current ::
        searchPops layer fuel (expandCurrent layer current { st with open_stack := rest }) := by
  conv_lhs => unfold searchPops
  simp only [h]

theorem count_searchPops_le (layer : Layer) (fuel : Nat) (st : SearchState) (g : GlobalIndex) :
    List.count g (searchPops layer fuel st) ≤ popBudget g st := by
  induction fuel generalizing st with
  | zero => rw [searchPops_zero]; exact Nat.zero_le _
  | succ n ih =>
    cases hs : st.open_stack with
    | nil => rw [searchPops_nil layer (n + 1) hs]; exact Nat.zero_le _
    | cons c rest =>
      rw [searchPops_succ layer n hs, List.count_cons]
      have h1 := ih (expandCurrent layer c { st with open_stack := rest })
      have h2 : popBudget g (expandCurrent layer c { st with open_stack := rest }) =
          popBudget g { st with open_stack := rest } :=
        popBudget_foldl layer c kNeighborOffsets _ g
      rw [h2] at h1
      unfold popBudget at h1 ⊢
      rw [hs, List.count_cons]
      simp only at h1
      omega

theorem sealed_pops :
    computeFrontierCandidatesPops sealedLayer sealedStart [] 3 =
      [⟨1, 1, 1⟩, ⟨2, 1, 1⟩, ⟨1, 1, 1⟩] := by
  decide!

/-- C22, as stated, fails: in the sealed cavity the run started in the voxel (1,1,1)
pops the indices (1,1,1), (2,1,1), (1,1,1): the seed is popped and expanded twice. -/
theorem seed_popped_twice_counterexample :
    computeFrontierCandidates sealedLayer sealedStart [] [] 3 =
      .finished [⟨2, 1, 1⟩, ⟨1, 1, 1⟩]
        (computeFrontierCandidates sealedLayer sealedStart [] [] 3).obstaclesOf ∧
    computeFrontierCandidatesPops sealedLayer sealedStart [] 3 =
      [⟨1, 1, 1⟩, ⟨2, 1, 1⟩, ⟨1, 1, 1⟩] ∧
    indexFromPoint sealedStart (1 / sealedLayer.voxel_size) = ⟨1, 1, 1⟩ ∧
    List.count (⟨1, 1, 1⟩ : GlobalIndex)
      (computeFrontierCandidatesPops sealedLayer sealedStart [] 3) = 2 :=
  ⟨sealed_run, sealed_pops, by decide!, by decide!⟩

/-- C22, amended: among the indices popped during any number of iterations of the search
loop of `computeFrontierCandidates`, every index other than the seed occurs at most
once and the seed occurs at most twice. -/
theorem computeFrontierCandidates_pops_bounded (layer : Layer) (initial_point : Point)
    (obstacles : GlobalIndexVector) (fuel : Nat) (g : GlobalIndex) :
    List.count g (computeFrontierCandidatesPops layer initial_point obstacles fuel) ≤
      if g = indexFromPoint initial_point (1 / layer.voxel_size) then 2 else 1 := by
  unfold computeFrontierCandidatesPops
  by_cases hv : layer.voxel_size > 0
  · simp only [hv, if_true]
    refine le_trans (count_searchPops_le layer fuel _ g) ?_
    unfold popBudget
    generalize indexFromPoint initial_point (1 / layer.voxel_size) = seed
    by_cases e : g = seed
    · simp [e]
    · have e' : ¬ seed = g := fun h => e h.symm
      simp [e, e', List.count_cons]
  · simp only [hv, if_false, List.count_nil]
    split <;> omega

/-- C23: whenever `computeFrontierCandidates`, called with an empty explored vector,
returns, its explored output contains no index twice; the obstacle output may contain an
index several times, as it does for the run in the sealed cavity. -/
theorem computeFrontierCandidates_explored_nodup (layer : Layer) (initial_point : Point)
    (obstacles : GlobalIndexVector) (fuel : Nat) (voxels' obstacles' : GlobalIndexVector)
    (h : computeFrontierCandidates layer initial_point [] obstacles fuel =
      .finished voxels' obstacles') :
    voxels'.Nodup ∧
    ¬ (computeFrontierCandidates sealedLayer sealedStart [] [] 3).obstaclesOf.Nodup ∧
    1 < List.count (⟨0, 0, 0⟩ : GlobalIndex)
      (computeFrontierCandidates sealedLayer sealedStart [] [] 3).obstaclesOf := by
  obtain ⟨_, st, hs, e1, _⟩ := computeFrontierCandidates_finished h
  obtain ⟨hinv, _⟩ := searchLoop_inv fuel (searchInv_init layer _ obstacles) hs
  rw [e1, List.nil_append]
  exact ⟨hinv.2.2.2, by decide!, by decide!⟩

theorem computeFrontierCandidates_explored_nodup_witness :
    computeFrontierCandidates sealedLayer sealedStart [] [] 3 =
      .finished [⟨2, 1, 1⟩, ⟨1, 1, 1⟩]
        (computeFrontierCandidates sealedLayer sealedStart [] [] 3).obstaclesOf ∧
    (([⟨2, 1, 1⟩, ⟨1, 1, 1⟩] : GlobalIndexVector).Nodup ∧
    ¬ (computeFrontierCandidates sealedLayer sealedStart [] [] 3).obstaclesOf.Nodup ∧
    1 < List.count (⟨0, 0, 0⟩ : GlobalIndex)
      (computeFrontierCandidates sealedLayer sealedStart [] [] 3).obstaclesOf) :=
  ⟨sealed_run,
    computeFrontierCandidates_explored_nodup sealedLayer sealedStart [] 3 _ _ sealed_run⟩

/-! ## Order of the metrics -/

theorem computeMetrics_ordered (i dRef dObs : Nat) (hRef : i + dRef ≠ 0)
    (hObs : i + dObs ≠ 0) :
    ∃ iouV precisionV recallV observedV : ℚ,
      computeMetrics i dRef i dObs =
        { iou := .quotient iouV, precision := .quotient precisionV,
          recall_ := .quotient recallV, observed_region := .quotient observedV } ∧
      0 ≤ iouV ∧ iouV ≤ precisionV ∧ precisionV ≤ 1 ∧ iouV ≤ recallV ∧ recallV ≤ 1 := by
  have h1 : i + dRef + dObs ≠ 0 := by omega
  have h2 : dRef + i ≠ 0 := by omega
  refine ⟨(i : ℚ) / ((i + dRef + dObs : Nat) : ℚ), (i : ℚ) / ((i + dObs : Nat) : ℚ),
    (i : ℚ) / ((i + dRef : Nat) : ℚ), ((i + dObs : Nat) : ℚ) / ((dRef + i : Nat) : ℚ),
    ?_, ?_, ?_, ?_, ?_, ?_⟩
  · simp only [computeMetrics, divCounts_of_ne_zero _ h1, divCounts_of_ne_zero _ hRef,
      divCounts_of_ne_zero _ hObs, divCounts_of_ne_zero _ h2]
  · exact div_nonneg (Nat.cast_nonneg _) (Nat.cast_nonneg _)
  · apply div_le_div_of_nonneg_left (Nat.cast_nonneg _)
    · exact_mod_cast Nat.pos_of_ne_zero hObs
    · exact_mod_cast (by omega : i + dObs ≤ i + dRef + dObs)
  · apply div_le_one_of_le₀ _ (Nat.cast_nonneg _)
    exact_mod_cast (by omega : i ≤ i + dObs)
  · apply div_le_div_of_nonneg_left (Nat.cast_nonneg _)
    · exact_mod_cast Nat.pos_of_ne_zero hRef
    · exact_mod_cast (by omega : i + dRef ≤ i + dRef + dObs)
  · apply div_le_one_of_le₀ _ (Nat.cast_nonneg _)
    exact_mod_cast (by omega : i ≤ i + dRef)

theorem length_emitLayer (A B : Layer) :
    ((emitLayer A).filter B.isOccupied).length +
      ((emitLayer A).filter (fun g => !B.isOccupied g)).length = (emitLayer A).length :=
  (List.length_eq_length_filter_add B.isOccupied).symm

theorem length_intersection_comm {A B : Layer} (hA : A.WF) (hB : B.WF) :
    ((emitLayer B).filter A.isOccupied).length =
      ((emitLayer A).filter B.isOccupied).length := by
  have e1 := ncard_of_list _ ((nodup_emitLayer hA).filter B.isOccupied) _
    (mem_intersection_iff (B := B) hA)
  have e2 := ncard_of_list _ ((nodup_emitLayer hB).filter A.isOccupied) _
    (mem_intersection_iff (B := A) hB)
  have e : {g | A.Occupied g ∧ B.Occupied g} = {g | B.Occupied g ∧ A.Occupied g} := by
    ext g
    exact and_comm
  rw [← e1, ← e2, e]

/-- C24: for well-formed grids `G` and `O` of equal voxel size that each contain an
Occupied voxel, the four metrics are quotients with 0 <= IoU <= precision <= 1 and
0 <= IoU <= recall <= 1; the observed fraction can exceed 1, as it does (value 4) when
the two maps of the fixture exchange their roles. -/
theorem metrics_ordered (G O : Layer) (hG : G.WF) (hO : O.WF)
    (hsize : G.voxel_size = O.voxel_size) (hg : ∃ g, G.Occupied g)
    (ho : ∃ g, O.Occupied g) :
    (∃ iouV precisionV recallV observedV : ℚ,
      evaluate G O =
        some { iou := .quotient iouV, precision := .quotient precisionV,
               recall_ := .quotient recallV, observed_region := .quotient observedV } ∧
      0 ≤ iouV ∧ iouV ≤ precisionV ∧ precisionV ≤ 1 ∧ iouV ≤ recallV ∧ recallV ≤ 1) ∧
    (evaluate observed_map ground_truth_map).map Metrics.observed_region =
      some (.quotient 4) := by
  refine ⟨?_, by decide!⟩
  obtain ⟨g, hg⟩ := hg
  obtain ⟨o, ho⟩ := ho
  have pG : (emitLayer G).length ≠ 0 :=
    Nat.pos_iff_ne_zero.1 (List.length_pos_of_mem ((mem_emitLayer hG g).2 hg))
  have pO : (emitLayer O).length ≠ 0 :=
    Nat.pos_iff_ne_zero.1 (List.length_pos_of_mem ((mem_emitLayer hO o).2 ho))
  have lG := length_emitLayer G O
  have lO := length_emitLayer O G
  have hc := length_intersection_comm hG hO
  have hRef : ((emitLayer G).filter O.isOccupied).length +
      ((emitLayer G).filter (fun g => !O.isOccupied g)).length ≠ 0 := by omega
  have hObs : ((emitLayer G).filter O.isOccupied).length +
      ((emitLayer O).filter (fun g => !G.isOccupied g)).length ≠ 0 := by omega
  obtain ⟨a, b, c, d, e, h⟩ := computeMetrics_ordered _ _ _ hRef hObs
  refine ⟨a, b, c, d, ?_, h⟩
  simp only [evaluate, hsize, if_true, calculate_eq, List.nil_append, hc]
  rw [e]

theorem metrics_ordered_witness :
    ground_truth_map.WF ∧ observed_map.WF ∧
    ground_truth_map.voxel_size = observed_map.voxel_size ∧
    (∃ g, ground_truth_map.Occupied g) ∧ (∃ g, observed_map.Occupied g) ∧
    ((∃ iouV precisionV recallV observedV : ℚ,
      evaluate ground_truth_map observed_map =
        some { iou := .quotient iouV, precision := .quotient precisionV,
               recall_ := .quotient recallV, observed_region := .quotient observedV } ∧
      0 ≤ iouV ∧ iouV ≤ precisionV ∧ precisionV ≤ 1 ∧ iouV ≤ recallV ∧ recallV ≤ 1) ∧
    (evaluate observed_map ground_truth_map).map Metrics.observed_region =
      some (.quotient 4)) :=
  ⟨ground_truth_map_wf, observed_map_wf, by decide!,
    ⟨⟨5, 3, 0⟩, (isOccupied_iff _ _).1 (by decide!)⟩,
    ⟨⟨5, 3, 0⟩, (isOccupied_iff _ _).1 (by decide!)⟩,
    metrics_ordered ground_truth_map observed_map ground_truth_map_wf observed_map_wf
      (by decide!) ⟨⟨5, 3, 0⟩, (isOccupied_iff _ _).1 (by decide!)⟩
      ⟨⟨5, 3, 0⟩, (isOccupied_iff _ _).1 (by decide!)⟩⟩

/-! ## Observed voxels and `pruneOutlierVoxels` -/

/-- C25, the code at the failing input: in the layer whose only written voxel is
(-1,0,0), of weight 1, that voxel alone defines the lower x bound -1/2 of the box, yet
`pruneOutlierVoxels` removes its index from the list [(-1,0,0), (0,0,0)] and keeps only
(0,0,0). -/
theorem pruneOutlierVoxels_prunes_observed_voxel :
    negativeLayer.isObservedAt ⟨-1, 0, 0⟩ = true ∧
    0 < negativeLayer.voxel_size ∧
    (outlierBounds negativeLayer).1.x = -1 / 2 ∧
    pruneOutlierVoxels negativeLayer [⟨-1, 0, 0⟩, ⟨0, 0, 0⟩] = [⟨0, 0, 0⟩] ∧
    (⟨-1, 0, 0⟩ : GlobalIndex) ∉ pruneOutlierVoxels negativeLayer [⟨-1, 0, 0⟩, ⟨0, 0, 0⟩] := by
  decide!

end SscMapping
